import Mathlib

/-!
# gocache: a shallow embedding of the cache helper and its specification

The development follows the layout of the repository.

* `storage/local/disk.go`: `indexEntry`, `Disk.Get`, `Disk.Put`, `writeTempFile`,
  `writeAtomic`, over an explicit file-system state.
* `storage/local/merge_remote.go`: `MergeRemote.Start`, `Get`, `Put`, `Close`, over two
  abstract tiers.
* `server/process.go`: `Process.parseRequest`, `handleRequest`, `handleGet`, `handlePut`,
  `close`, `Run`, over an abstract composed store.

Go values are modelled as follows.  A Go `string` is a Lean `String`; a `[]byte` and the
contents of a file are a `List UInt8`; `int64` is `Int` (no arithmetic in these functions can
overflow); an `error` is an `Option Error`, `none` being `nil`.  State is passed explicitly.
The standard library is modelled only as far as the functions above use it; each such model
says what it assumes.
-/

namespace Gocache

/-! ## Go values -/

/-- Contents of a byte slice or of a file. -/
abbrev Bytes := List UInt8

/-- Go error values.  `EOF` is `io.EOF`; `ErrNotExist` stands for any error of the `os`
package for which `os.IsNotExist` holds; `ErrUnknownCommand` and `ErrNoOutputID` are the two
sentinel errors of `server/process.go`; `errorString` is a value made by `errors.New` or by
`fmt.Errorf` without `%w` (and any library error that is none of the above); `wrapError` is a
value made by `fmt.Errorf` with `%w`, `msg` being the text before the wrapped error;
`joinError` and `joinLast` make the list of errors of an `errors.Join`. -/
inductive Error where
  | EOF
  | ErrNotExist
  | ErrUnknownCommand
  | ErrNoOutputID
  | errorString (msg : String)
  | wrapError (msg : String) (err : Error)
  | joinError (err : Error) (next : Error)
  | joinLast (err : Error)
  deriving DecidableEq, Repr

namespace errors

/-- Go `errors.Is(err, io.EOF)`: follows the `%w` chain and the joined errors. -/
def IsEOF : Error → Bool
  | .EOF => true
  | .wrapError _ err => IsEOF err
  | .joinError err next => IsEOF err || IsEOF next
  | .joinLast err => IsEOF err
  | _ => false

/-- Go `errors.Join(err, errAll)` for a non-nil `err`; a nil `errAll` is dropped. -/
def Join (err : Error) (errAll : Option Error) : Error :=
  match errAll with
  | none => .joinLast err
  | some e => .joinError err (.joinLast e)

end errors

/-- An `io.Reader`: the bytes it yields, then either a clean end (`err = none`, the reader
returns `io.EOF`) or the error `err`. -/
structure Reader where
  data : Bytes
  err : Option Error
  deriving DecidableEq, Repr

/-- Go `bytes.NewReader(b)`. -/
def bytes.NewReader (b : Bytes) : Reader := ⟨b, none⟩

/-! ## encoding/hex -/

namespace hex

/-- Value of one hexadecimal digit, `none` for any other character (`fromHexChar`). -/
def fromHexChar (c : Char) : Option Nat :=
  if '0' ≤ c ∧ c ≤ '9' then some (c.toNat - '0'.toNat)
  else if 'a' ≤ c ∧ c ≤ 'f' then some (c.toNat - 'a'.toNat + 10)
  else if 'A' ≤ c ∧ c ≤ 'F' then some (c.toNat - 'A'.toNat + 10)
  else none

/-- Go `hex.Decode` on the characters of the source: the bytes decoded before the first
error, and the error (`none` when the whole source was decoded).  An error is a character
that is not a hexadecimal digit, or an odd length. -/
def decodeChars : List Char → Bytes × Option Error
  | [] => ([], none)
  | [c] =>
    match fromHexChar c with
    | none => ([], some (Error.errorString "encoding/hex: invalid byte"))
    | some _ => ([], some (Error.errorString "encoding/hex: odd length hex string"))
  | a :: b :: rest =>
    match fromHexChar a, fromHexChar b with
    | some x, some y => (UInt8.ofNat (x * 16 + y) :: (decodeChars rest).1, (decodeChars rest).2)
    | _, _ => ([], some (Error.errorString "encoding/hex: invalid byte"))

/-- Go `hex.DecodeString`: the decoded bytes and the error. -/
def DecodeString (s : String) : Bytes × Option Error := decodeChars s.data

/-- The digit of a value below sixteen, lower case. -/
def digit (n : Nat) : Char :=
  if n < 10 then Char.ofNat ('0'.toNat + n) else Char.ofNat ('a'.toNat + (n - 10))

/-- Go `fmt.Sprintf("%x", b)` for a byte slice `b`: two lower-case digits per byte. -/
def EncodeToString (b : Bytes) : String :=
  String.mk (b.flatMap fun x => [digit (x.toNat / 16), digit (x.toNat % 16)])

end hex

/-! ## The file system -/

/-- What a path names: a regular file with its contents, or something that is not a regular
file (a directory). -/
inductive Node where
  | file (data : Bytes)
  | dir
  deriving DecidableEq, Repr

/-- The file system: what each path names, `none` when nothing exists there.  A path names a
file by its characters: the paths the program passes to the `os` package are results of
`filepath.Join` and `filepath.Dir`, which are clean, but for the directory given to
`os.MkdirAll`, which is recorded under its clean name, and for the temporary files of a
cache directory `.`, whose names `os.CreateTemp` starts with `./`.  Links are not modelled. -/
abbrev FS := String → Option Node

/-- The file system with `path` naming `node` (or nothing). -/
def FS.set (fs : FS) (path : String) (node : Option Node) : FS :=
  fun q => if q = path then node else fs q

/-- Go `os.FileInfo`, as far as the program reads it. -/
structure FileInfo where
  IsRegular : Bool
  Size : Int
  deriving DecidableEq, Repr

namespace filepath

/-- The elements of a path: the runs of characters between separators, empty runs included. -/
def splitElems : List Char → List (List Char)
  | [] => [[]]
  | c :: cs =>
    if c = '/' then [] :: splitElems cs
    else
      match splitElems cs with
      | [] => [[c]]
      | e :: es => (c :: e) :: es

/-- One turn of the loop of Go `filepath.Clean`, on the element `e`, with `out` the elements
written so far.  An empty element and `.` are dropped.  `..` removes the last element written
when there is one that is not itself `..`; otherwise it is dropped in a rooted path and
written in a path that is not rooted.  Any other element is written. -/
def cleanStep (rooted : Bool) (out : List (List Char)) (e : List Char) : List (List Char) :=
  if e = [] ∨ e = ['.'] then out
  else if e = ['.', '.'] then
    match out.getLast? with
    | some top => if top = ['.', '.'] then out ++ [e] else out.dropLast
    | none => if rooted then out else out ++ [e]
  else out ++ [e]

/-- The elements written, with one separator between two of them. -/
def joinElems : List (List Char) → List Char
  | [] => []
  | [e] => e
  | e :: es => e ++ '/' :: joinElems es

/-- The elements `filepath.Clean` writes for a path. -/
def cleanElems (path : List Char) : List (List Char) :=
  (splitElems path).foldl (cleanStep (path.head? = some '/')) []

/-- Go `filepath.Clean` (separator `/`, no volume name): the shortest path that names the
same file by its characters alone.  The empty path and a path that cleans to nothing give
`.`. -/
def Clean (path : String) : String :=
  if path = "" then "."
  else
    let text := (if path.data.head? = some '/' then ['/'] else []) ++
      joinElems (cleanElems path.data)
    if text = [] then "." else String.mk text

/-- Go `filepath.Join(dir, name)`: the elements that are not empty, joined by a separator,
cleaned; the empty string when both are empty. -/
def Join (dir name : String) : String :=
  if dir ≠ "" then Clean (dir ++ "/" ++ name)
  else if name ≠ "" then Clean name
  else ""

/-- Go `filepath.Dir`: the path up to its last separator, cleaned. -/
def Dir (path : String) : String :=
  Clean (String.mk (path.data.reverse.dropWhile fun c => !(c == '/')).reverse)

/-- Go `filepath.Base`: the last element of the path, trailing separators removed; `.` for
the empty path and `/` for a path of separators only. -/
def Base (path : String) : String :=
  if path = "" then "."
  else
    let last := ((path.data.reverse.dropWhile fun c => c == '/').takeWhile
      fun c => !(c == '/')).reverse
    if last = [] then "/" else String.mk last

end filepath

namespace os

/-- Go `os.IsNotExist`. -/
def IsNotExist (err : Error) : Bool := err = Error.ErrNotExist

/-- Go `os.ReadFile`. -/
def ReadFile (fs : FS) (path : String) : Except Error Bytes :=
  match fs path with
  | none => .error Error.ErrNotExist
  | some (.file data) => .ok data
  | some .dir => .error (Error.errorString "is a directory")

/-- Go `os.Stat`.  The empty path names nothing. -/
def Stat (fs : FS) (path : String) : Except Error FileInfo :=
  if path = "" then .error Error.ErrNotExist
  else
    match fs path with
    | none => .error Error.ErrNotExist
    | some (.file data) => .ok ⟨true, data.length⟩
    | some .dir => .ok ⟨false, 0⟩

/-- The check every call that creates a file makes on the directory the file is to be in:
it must exist and be a directory. -/
def parentError (fs : FS) (path : String) : Option Error :=
  match fs (filepath.Dir path) with
  | some .dir => none
  | some (.file _) => some (Error.errorString "not a directory")
  | none => some Error.ErrNotExist

/-- Go `os.OpenFile(path, O_CREATE|O_TRUNC|O_RDWR, 0644)` followed by `Close`: the file
exists and is empty afterwards.  `fault` is a failure of the call decided by the environment
(permissions). -/
def OpenFileTrunc (fault : Option Error) (fs : FS) (path : String) : Except Error FS :=
  match fault with
  | some err => .error err
  | none =>
    match parentError fs path with
    | some err => .error err
    | none =>
      match fs path with
      | some .dir => .error (Error.errorString "is a directory")
      | _ => .ok (fs.set path (some (.file [])))

/-- Go `joinPath` of package `os`: `dir` and `name` with a separator between them unless
`dir` ends with one. -/
def joinPath (dir name : String) : String :=
  if dir.data.getLast? = some '/' then dir ++ name else dir ++ "/" ++ name

/-- The name `os.CreateTemp(filepath.Dir(dest), filepath.Base(dest)+".*")` gives its file
when the random string is `rnd`. -/
def tempName (dest rnd : String) : String :=
  joinPath (filepath.Dir dest) (filepath.Base dest ++ "." ++ rnd)

/-- Go `os.CreateTemp(filepath.Dir(dest), filepath.Base(dest)+".*")`: creates an empty file
in the directory of `dest`, named after `dest`, a dot and the random string `rnd` (the
decimal digits the call draws).  It fails when the pattern holds a separator, when the
directory is missing, and when the name exists already.  The call draws again when the name
exists and fails once every draw has named an existing file; `rnd` stands for the draw that
ends the call.  `fault` is a failure of the call decided by the environment. -/
def CreateTemp (fault : Option Error) (rnd : String) (fs : FS) (dest : String) :
    Except Error (String × FS) :=
  match fault with
  | some err => .error err
  | none =>
    if '/' ∈ (filepath.Base dest).data then
      .error (Error.errorString "pattern contains path separator")
    else
      match parentError fs dest with
      | some err => .error err
      | none =>
        let name := tempName dest rnd
        match fs name with
        | some _ => .error (Error.errorString "file exists")
        | none => .ok (name, fs.set name (some (.file [])))

/-- Go `os.Remove`. -/
def Remove (fs : FS) (path : String) : FS := fs.set path none

/-- Go `os.Rename(src, dest)`: `dest` is replaced by `src`.  Fails when `dest` is a
directory and when `src` does not exist; nothing happens when both name the same file.
`fault` is a failure of the call decided by the environment. -/
def Rename (fault : Option Error) (fs : FS) (src dest : String) : Except Error FS :=
  match fault with
  | some err => .error err
  | none =>
    match fs dest, fs src with
    | some .dir, _ => .error (Error.errorString "file exists")
    | _, none => .error Error.ErrNotExist
    | _, some node =>
      if src = dest then .ok fs
      else .ok ((fs.set dest (some node)).set src none)

/-- Go `os.MkdirAll(path, 0755)`: the directory named by `path` exists afterwards, under its
clean name (the directories above it are not recorded).  Fails on the empty path and on a
file. -/
def MkdirAll (fs : FS) (path : String) : Except Error FS :=
  if path = "" then .error Error.ErrNotExist
  else
    match fs (filepath.Clean path) with
    | some (.file _) => .error (Error.errorString "not a directory")
    | _ => .ok (fs.set (filepath.Clean path) (some .dir))

end os

/-- Go `io.Copy(tf, r)` into the open file `name`: the number of bytes written and the file
system afterwards.  Fails with the reader's error, or with `fault` (a failed write). -/
def io.Copy (fault : Option Error) (fs : FS) (name : String) (r : Reader) :
    Except Error (Int × FS) :=
  match r.err with
  | some err => .error err
  | none =>
    match fault with
    | some err => .error err
    | none => .ok ((r.data.length : Int), fs.set name (some (.file r.data)))

/-! ## storage/count -/

/-- The counters of `count.Count`. -/
structure Count where
  Gets : Int
  Hits : Int
  Misses : Int
  Puts : Int
  GetErrors : Int
  PutErrors : Int
  deriving DecidableEq, Repr

/-! ## storage/local/disk.go -/

/-- The metadata that `Disk` stores on disk for an action. -/
structure indexEntry where
  Version : Int
  OutputID : String
  Size : Int
  TimeNanos : Int
  deriving DecidableEq, Repr

/-- The two functions of `encoding/json` that `Disk` calls on an `indexEntry`.  Their results
are taken as given: an error is `Except.error`. -/
structure JSON where
  Marshal : indexEntry → Except Error Bytes
  Unmarshal : Bytes → Except Error indexEntry

/-- The configuration of a `Disk`. -/
structure Disk where
  dir : String
  verbose : Bool
  deriving DecidableEq, Repr

/-- The mutable state a `Disk` works on: the file system and its counters. -/
structure DiskState where
  fs : FS
  count : Count

/-- What the environment decides during one `writeAtomic`: the random part of the temporary
name, the failures of the three calls, and the number of bytes `io.Copy` had read from its
reader when its write failed. -/
structure WriteEnv where
  rnd : String
  createErr : Option Error
  copyErr : Option Error
  copyRead : Nat
  renameErr : Option Error
  deriving DecidableEq, Repr

/-- What the environment decides during one `Disk.Put`: the clock, a failure of the
`OpenFile` of the empty-file case, and the two atomic writes. -/
structure PutEnv where
  now : Int
  openErr : Option Error
  object : WriteEnv
  index : WriteEnv
  deriving DecidableEq, Repr

/-- Go `writeTempFile`: creates the temporary file and copies `r` into it; the deferred
function removes the file when the copy failed. -/
def writeTempFile (env : WriteEnv) (fs : FS) (dest : String) (r : Reader) :
    Except Error (String × Int) × FS :=
  match os.CreateTemp env.createErr env.rnd fs dest with
  | .error err => (.error err, fs)
  | .ok (fileName, fs1) =>
    match io.Copy env.copyErr fs1 fileName r with
    | .error err => (.error err, os.Remove fs1 fileName)
    | .ok (size, fs2) => (.ok (fileName, size), fs2)

/-- Go `writeAtomic`: writes a temporary file and renames it to `dest`; the deferred function
removes the temporary file when the rename failed. -/
def writeAtomic (env : WriteEnv) (fs : FS) (dest : String) (r : Reader) :
    Except Error Int × FS :=
  match writeTempFile env fs dest r with
  | (.error err, fs1) => (.error err, fs1)
  | (.ok (tempFile, size), fs1) =>
    match os.Rename env.renameErr fs1 tempFile dest with
    | .error err => (.error err, os.Remove fs1 tempFile)
    | .ok fs2 => (.ok size, fs2)

/-- Name of the index file of an action. -/
def Disk.actionFile (d : Disk) (actionID : String) : String :=
  filepath.Join d.dir ("a-" ++ actionID)

/-- Name of the object file of an output. -/
def Disk.objectFile (d : Disk) (outputID : String) : String :=
  filepath.Join d.dir ("o-" ++ outputID)

/-- Go `Disk.Get`: the result `(outputID, diskPath, err)` and the state afterwards. -/
def Disk.Get (d : Disk) (J : JSON) (actionID : String) (s : DiskState) :
    (String × String × Option Error) × DiskState :=
  let s := { s with count := { s.count with Gets := s.count.Gets + 1 } }
  let actionFile := d.actionFile actionID
  match os.ReadFile s.fs actionFile with
  | .error err =>
    if os.IsNotExist err then
      (("", "", none), { s with count := { s.count with Misses := s.count.Misses + 1 } })
    else
      (("", "", some err),
        { s with count := { s.count with GetErrors := s.count.GetErrors + 1 } })
  | .ok ij =>
    match J.Unmarshal ij with
    | .error _ => (("", "", none), s)
    | .ok ie =>
      match (hex.DecodeString ie.OutputID).2 with
      | some _ => (("", "", none), s)
      | none => ((ie.OutputID, d.objectFile ie.OutputID, none), s)

/-- A `DiskState` with one more put error counted. -/
def DiskState.putError (s : DiskState) (fs : FS) : DiskState :=
  { fs := fs, count := { s.count with PutErrors := s.count.PutErrors + 1 } }

/-- Go `Disk.Put`: the result `(diskPath, err)` and the state afterwards. -/
def Disk.Put (d : Disk) (J : JSON) (env : PutEnv) (actionID objectID : String) (size : Int)
    (body : Reader) (s : DiskState) : (String × Option Error) × DiskState :=
  let s := { s with count := { s.count with Puts := s.count.Puts + 1 } }
  let file := d.objectFile objectID
  let written : Except Error Unit × FS :=
    if size = 0 then
      match os.OpenFileTrunc env.openErr s.fs file with
      | .error err => (.error err, s.fs)
      | .ok fs1 => (.ok (), fs1)
    else
      match writeAtomic env.object s.fs file body with
      | (.error err, fs1) => (.error err, fs1)
      | (.ok wrote, fs1) =>
        if wrote ≠ size then
          (.error (Error.errorString
            ("wrote " ++ toString wrote ++ " bytes, expected " ++ toString size)), fs1)
        else (.ok (), fs1)
  match written with
  | (.error err, fs1) => (("", some err), s.putError fs1)
  | (.ok (), fs1) =>
    match J.Marshal ⟨1, objectID, size, env.now⟩ with
    | .error err => (("", some err), s.putError fs1)
    | .ok ij =>
      match writeAtomic env.index fs1 (d.actionFile actionID) (bytes.NewReader ij) with
      | (.error err, fs2) => (("", some err), s.putError fs2)
      | (.ok _, fs2) => ((file, none), { s with fs := fs2 })

/-- The number of bytes a `Disk.Put` reads from `body`.  For `size == 0` the body is not
read.  Otherwise it is read by the `io.Copy` of the first `writeAtomic`: not at all when the
temporary file could not be created, up to the failure when a write failed, and to its end in
every other case. -/
def Disk.PutReads (d : Disk) (env : PutEnv) (objectID : String) (size : Int) (body : Reader)
    (s : DiskState) : Nat :=
  if size = 0 then 0
  else
    match os.CreateTemp env.object.createErr env.object.rnd s.fs (d.objectFile objectID) with
    | .error _ => 0
    | .ok _ =>
      match body.err, env.object.copyErr with
      | none, some _ => min env.object.copyRead body.data.length
      | _, _ => body.data.length

/-- The state a `Disk.Put` comes to rest in when its reader yields the bytes of `body` and
then, unless `size == 0`, blocks for ever instead of ending.  The call returns when it does
not need the end of the stream: for `size == 0`, where the body is not read; when the
temporary file cannot be created; and when the copy fails.  Otherwise it waits in the
`io.Copy` of `writeTempFile`, with the bytes it has read in its temporary file: nothing is
renamed, nothing is removed, and no index entry is written. -/
def Disk.PutUnjoined (d : Disk) (J : JSON) (env : PutEnv) (actionID objectID : String)
    (size : Int) (body : Reader) (s : DiskState) : DiskState :=
  if size = 0 then (d.Put J env actionID objectID size body s).2
  else
    match os.CreateTemp env.object.createErr env.object.rnd s.fs (d.objectFile objectID) with
    | .error _ => (d.Put J env actionID objectID size body s).2
    | .ok (fileName, fs1) =>
      match body.err, env.object.copyErr with
      | none, none =>
        { fs := fs1.set fileName (some (.file body.data))
          count := { s.count with Puts := s.count.Puts + 1 } }
      | _, _ => (d.Put J env actionID objectID size body s).2

/-! ## A reference codec

The text `encoding/json` writes for an `indexEntry` whose `OutputID` needs no escaping,
`{"v":1,"o":"..","n":5,"t":0}`, and a reader of that same form.  It gives the theorems below
a concrete codec to be evaluated with. -/

namespace json

/-- Decimal text of an integer. -/
def intText : Int → List Char
  | .ofNat n => Nat.toDigits 10 n
  | .negSucc n => '-' :: Nat.toDigits 10 (n + 1)

/-- The text written for an entry. -/
def entryText (e : indexEntry) : List Char :=
  "\x7b\"v\":".data ++ intText e.Version ++ ",\"o\":\"".data ++ e.OutputID.data ++
    "\",\"n\":".data ++ intText e.Size ++ ",\"t\":".data ++ intText e.TimeNanos ++ "\x7d".data

/-- Drops `lit` from the front of the input, `none` when the input does not start with it. -/
def expect (lit : List Char) (input : List Char) : Option (List Char) :=
  if lit.isPrefixOf input then some (input.drop lit.length) else none

/-- Value of a run of decimal digits. -/
def digitsValue (ds : List Char) : Nat :=
  ds.foldl (fun acc c => acc * 10 + (c.toNat - '0'.toNat)) 0

/-- Reads an integer from the front of the input. -/
def readInt (input : List Char) : Option (Int × List Char) :=
  let neg := input.head? = some '-'
  let rest := if neg then input.drop 1 else input
  let ds := rest.takeWhile Char.isDigit
  if ds = [] then none
  else some (if neg then -(digitsValue ds : Int) else (digitsValue ds : Int), rest.drop ds.length)

/-- Reads the characters of a string up to its closing quote; escapes are not accepted. -/
def readString (input : List Char) : Option (String × List Char) :=
  let cs := input.takeWhile fun c => c ≠ '"' ∧ c ≠ '\\'
  match input.drop cs.length with
  | '"' :: rest => some (String.mk cs, rest)
  | _ => none

/-- Reads an entry written by `entryText`. -/
def readEntry (input : List Char) : Option indexEntry := do
  let input ← expect "\x7b\"v\":".data input
  let (v, input) ← readInt input
  let input ← expect ",\"o\":\"".data input
  let (o, input) ← readString input
  let input ← expect ",\"n\":".data input
  let (n, input) ← readInt input
  let input ← expect ",\"t\":".data input
  let (t, input) ← readInt input
  if input = "\x7d".data then some ⟨v, o, n, t⟩ else none

/-- The reference codec, on ASCII text. -/
def reference : JSON where
  Marshal e := .ok ((entryText e).map fun c => UInt8.ofNat c.toNat)
  Unmarshal b :=
    match readEntry (b.map fun x => Char.ofNat x.toNat) with
    | some e => .ok e
    | none => .error (Error.errorString "json: cannot unmarshal")

end json

/-! ## storage/local/storage.go and storage/remote/storage.go -/

/-- The interface `local.Storage`, over a state `W`: each method gives its results and the
state afterwards.  `Put` gives `none` when the call never returns.  `Kind` and `Summary` only
feed the log and are left out. -/
structure Storage (W : Type) where
  Start : W → Option Error × W
  Get : String → W → (String × String × Option Error) × W
  Put : String → String → Int → Reader → W → Option ((String × Option Error) × W)
  Close : W → Option Error × W

/-- A `local.Storage` as the local tier of a `MergeRemote`, whose `Put` runs as a task that
reads a pipe: the storage, together with what its `Put` does to that pipe.  `PutReads` is the
number of bytes the `Put` with the same arguments reads from `body` before it returns or the
reader ends.  `PutUnjoined` is the state the tier comes to rest in when the write end of the
pipe is never closed: the reader yields the bytes of `body` and then, unless `size == 0`
(when it is an empty reader, which ends), blocks; the task has then returned, or waits for
more bytes for ever. -/
structure PipeStorage (W : Type) extends Storage W where
  PutReads : String → String → Int → Reader → W → Nat
  PutUnjoined : String → String → Int → Reader → W → W

/-- The interface `remote.Storage`, over a state `W`.  `Get` gives `(outputID, size, output,
err)`, the stream `output` being `none` when it is nil.  `Put` gives its error together with
the number of bytes it read from `body`, which is how the call changes the reader. -/
structure RemoteStorage (W : Type) where
  Start : W → Option Error × W
  Get : String → W → (String × Int × Option Reader × Option Error) × W
  Put : String → String → Int → Reader → W → (Option Error × Nat) × W
  Close : W → Option Error × W

/-- A `Disk` as a `local.Storage`.  `envs k` is what the environment decides during the
`Put` that follows `k` earlier ones. -/
def Disk.storage (d : Disk) (J : JSON) (envs : Int → PutEnv) : PipeStorage DiskState where
  Start s :=
    match os.MkdirAll s.fs d.dir with
    | .error err => (some err, s)
    | .ok fs1 => (none, { s with fs := fs1 })
  Get actionID s := d.Get J actionID s
  Put actionID outputID size body s :=
    some (d.Put J (envs s.count.Puts) actionID outputID size body s)
  PutReads _ outputID size body s := d.PutReads (envs s.count.Puts) outputID size body s
  PutUnjoined actionID outputID size body s :=
    d.PutUnjoined J (envs s.count.Puts) actionID outputID size body s
  Close s := (none, s)

/-! ## storage/local/merge_remote.go -/

/-- What a `MergeRemote` does to its tiers and to the pipe of `Put`, in the order it does
it. -/
inductive MergeEvent where
  | localStart
  | localGet
  | localPutSpawned
  | localPutJoined
  | localClose
  | remoteStart
  | remoteGet
  | remotePutReturned
  | remoteClose
  | pipeWriteClosed
  deriving DecidableEq, Repr

/-- A storage backed by a local storage and a remote storage. -/
structure MergeRemote (L R : Type) where
  localStorage : PipeStorage L
  remoteStorage : RemoteStorage R
  verbose : Bool

/-- The state a `MergeRemote` works on: the states of the two tiers, and the record of what
it did. -/
structure MergeState (L R : Type) where
  l : L
  r : R
  trace : List MergeEvent

/-- Go `cmp.Or` on two errors: the first that is not nil. -/
def cmp.Or (a b : Option Error) : Option Error :=
  match a with
  | some e => some e
  | none => b

/-- A `MergeState` with one more event recorded. -/
def MergeState.log {L R : Type} (s : MergeState L R) (e : MergeEvent) : MergeState L R :=
  { s with trace := s.trace ++ [e] }

/-- Go `MergeRemote.Start`. -/
def MergeRemote.Start {L R : Type} (m : MergeRemote L R) (s : MergeState L R) :
    Option Error × MergeState L R :=
  let (err, l1) := m.localStorage.Start s.l
  let s := { s with l := l1 }.log .localStart
  match err with
  | some e =>
    let (_, l2) := m.localStorage.Close s.l
    let s := { s with l := l2 }.log .localClose
    (some (Error.wrapError "local cache start failed: " e), s)
  | none =>
    let (err, r1) := m.remoteStorage.Start s.r
    let s := { s with r := r1 }.log .remoteStart
    match err with
    | some e =>
      let (_, r2) := m.remoteStorage.Close s.r
      let s := { s with r := r2 }.log .remoteClose
      (some (Error.wrapError "remote cache start failed: " e), s)
    | none => (none, s)

/-- Go `MergeRemote.Get`. -/
def MergeRemote.Get {L R : Type} (m : MergeRemote L R) (actionID : String)
    (s : MergeState L R) : (String × String × Option Error) × MergeState L R :=
  let ((localOutputID, localDiskPath, localErr), l1) := m.localStorage.Get actionID s.l
  let s := { s with l := l1 }.log .localGet
  if localErr = none ∧ localOutputID ≠ "" then
    ((localOutputID, localDiskPath, none), s)
  else
    let ((remoteOutputID, _, _, remoteErr), r1) := m.remoteStorage.Get actionID s.r
    let s := { s with r := r1 }.log .remoteGet
    if remoteErr = none ∧ remoteOutputID ≠ "" then
      ((remoteOutputID, localDiskPath, none), s)
    else
      (("", "", cmp.Or localErr remoteErr), s)

/-- The reader `MergeRemote.Put` gives the remote `Put`: the `TeeReader` on `body`, or an
empty reader for `size == 0`. -/
def MergeRemote.putBody (size : Int) (body : Reader) : Reader :=
  if size = 0 then bytes.NewReader [] else body

/-- The bytes the `TeeReader` of `MergeRemote.Put` writes to the pipe: those the remote `Put`
reads from `body`; none for `size == 0`. -/
def MergeRemote.piped {L R : Type} (m : MergeRemote L R) (actionID outputID : String)
    (size : Int) (body : Reader) (s : MergeState L R) : Bytes :=
  if size = 0 then []
  else body.data.take
    (m.remoteStorage.Put actionID outputID size (MergeRemote.putBody size body) s.r).1.2

/-- The reader the local `Put` of `MergeRemote.Put` is given: the read end of the pipe, which
yields the bytes written to the pipe and ends when the write end is closed; an empty reader
for `size == 0`. -/
def MergeRemote.localBody {L R : Type} (m : MergeRemote L R) (actionID outputID : String)
    (size : Int) (body : Reader) (s : MergeState L R) : Reader :=
  if size = 0 then bytes.NewReader [] else ⟨m.piped actionID outputID size body s, none⟩

/-- Go `MergeRemote.Put`; `none` when the call never returns.

The local `Put` runs as a task of the error group, reading the read end of an `io.Pipe`; the
remote `Put` runs in the caller and reads `body` through the `TeeReader`, which writes every
byte it reads to the write end.  A write to the pipe returns only once the read end has read
the bytes, and nothing ever closes the read end.  So when the local `Put` reads fewer bytes
than are written to the pipe, the write of the next byte never returns, nor does the remote
`Put`, nor does this call.  Otherwise the remote `Put` returns.  On its error this call
returns at once: the write end is not closed and the local task is not joined, and the state
of the local tier is the one that task comes to rest in.  On its success the write end is
closed, which ends the stream the local `Put` reads, and the task is joined; the call never
returns when the local `Put` does not.  For `size == 0` both tiers are given an empty reader
and nothing goes through the pipe. -/
def MergeRemote.Put {L R : Type} (m : MergeRemote L R) (actionID outputID : String)
    (size : Int) (body : Reader) (s : MergeState L R) :
    Option ((String × Option Error) × MergeState L R) :=
  let s0 := s
  let s := s.log .localPutSpawned
  let ((remoteErr, _), r1) :=
    m.remoteStorage.Put actionID outputID size (MergeRemote.putBody size body) s.r
  let localBody := m.localBody actionID outputID size body s0
  if m.localStorage.PutReads actionID outputID size localBody s.l <
      (m.piped actionID outputID size body s0).length then none
  else
    let s := { s with r := r1 }.log .remotePutReturned
    match remoteErr with
    | some err =>
      some (("", some err),
        { s with l := m.localStorage.PutUnjoined actionID outputID size localBody s.l })
    | none =>
      let s := s.log .pipeWriteClosed
      match m.localStorage.Put actionID outputID size localBody s.l with
      | none => none
      | some ((diskPath, localErr), l1) =>
        let s := { s with l := l1 }.log .localPutJoined
        match localErr with
        | some err => some (("", some err), s)
        | none => some ((diskPath, none), s)

/-- Go `MergeRemote.Close`. -/
def MergeRemote.Close {L R : Type} (m : MergeRemote L R) (s : MergeState L R) :
    Option Error × MergeState L R :=
  let errAll : Option Error := none
  let (err, l1) := m.localStorage.Close s.l
  let s := { s with l := l1 }.log .localClose
  let errAll :=
    match err with
    | some e => some (errors.Join (Error.wrapError "local cache close failed: " e) errAll)
    | none => errAll
  let (err, r1) := m.remoteStorage.Close s.r
  let s := { s with r := r1 }.log .remoteClose
  let errAll :=
    match err with
    | some e => some (errors.Join (Error.wrapError "remote cache close failed: " e) errAll)
    | none => errAll
  (errAll, s)

/-- A `MergeRemote` as a `local.Storage`. -/
def MergeRemote.storage {L R : Type} (m : MergeRemote L R) : Storage (MergeState L R) where
  Start := m.Start
  Get := m.Get
  Put := m.Put
  Close := m.Close

/-! ## server/internal/cacheprog -/

namespace cacheprog

/-- Modelled from the spec: the command names of `cacheprog.Cmd`, a string type whose
declaration is not among the sources; the wire format of section 6 gives the three values. -/
def CmdGet : String := "get"

/-- Modelled from the spec: the command name `cacheprog.CmdPut` (see `CmdGet`). -/
def CmdPut : String := "put"

/-- Modelled from the spec: the command name `cacheprog.CmdClose` (see `CmdGet`). -/
def CmdClose : String := "close"

/-- Modelled from the spec: the struct `cacheprog.Request`, whose declaration is not among the
sources, with the fields of the data model (section 3) and of the wire format (section 6).
`Body` is `none` when the field is nil. -/
structure Request where
  ID : Int
  Command : String
  ActionID : Bytes
  OutputID : Bytes
  BodySize : Int
  Body : Option Reader
  deriving DecidableEq, Repr

/-- Modelled from the spec: the struct `cacheprog.Response`, whose declaration is not among
the sources, with the fields of the data model (section 3) and of the wire format
(section 6). -/
structure Response where
  ID : Int
  Err : String
  KnownCommands : List String
  Miss : Bool
  OutputID : Bytes
  Size : Int
  DiskPath : String
  deriving DecidableEq, Repr

/-- The Go value `&cacheprog.Response{ID: id}`. -/
def Response.new (id : Int) : Response := ⟨id, "", [], false, [], 0, ""⟩

end cacheprog

open cacheprog (Request Response)

/-! ## server/process.go -/

/-- Go `err.Error()`. -/
def Error.text : Error → String
  | .EOF => "EOF"
  | .ErrNotExist => "file does not exist"
  | .ErrUnknownCommand => "unknown command"
  | .ErrNoOutputID => "no outputID"
  | .errorString msg => msg
  | .wrapError msg err => msg ++ err.text
  | .joinError err next => err.text ++ "\n" ++ next.text
  | .joinLast err => err.text

/-- One JSON value of the input stream, by what `Decode` makes of it: the request it decodes
to and the byte slice it decodes to, `none` when that decoding fails. -/
structure Value where
  asRequest : Option Request
  asBytes : Option Bytes
  deriving DecidableEq, Repr

/-- The `json.Decoder` on the input: the values still to be read, and how the stream ends
after them, cleanly (`Decode` returns `io.EOF`) or not (a truncated or malformed value, a
failed read). -/
structure Decoder where
  values : List Value
  cleanEnd : Bool
  deriving DecidableEq, Repr

/-- The error of a `Decode` at the end of the stream. -/
def Decoder.endError (jd : Decoder) : Error :=
  if jd.cleanEnd then Error.EOF else Error.errorString "unexpected EOF"

/-- The error of a `Decode` on a value that does not fit the target. -/
def Decoder.typeError : Error := Error.errorString "json: cannot unmarshal"

/-- Go `jd.Decode(&req)`. -/
def Decoder.DecodeRequest (jd : Decoder) : Except Error Request × Decoder :=
  match jd.values with
  | [] => (.error jd.endError, jd)
  | v :: rest =>
    match v.asRequest with
    | none => (.error Decoder.typeError, { jd with values := rest })
    | some req => (.ok req, { jd with values := rest })

/-- Go `jd.Decode(&bodyb)`. -/
def Decoder.DecodeBytes (jd : Decoder) : Except Error Bytes × Decoder :=
  match jd.values with
  | [] => (.error jd.endError, jd)
  | v :: rest =>
    match v.asBytes with
    | none => (.error Decoder.typeError, { jd with values := rest })
    | some b => (.ok b, { jd with values := rest })

/-- The calls a `Process` makes on its store; a `Close` is recorded with the error it
returned. -/
inductive CacheCall where
  | Start
  | Get (actionID : String)
  | Put (actionID outputID : String)
  | Close (err : Option Error)
  deriving DecidableEq, Repr

/-- Whether a recorded call is a `Close`. -/
def CacheCall.isClose : CacheCall → Bool
  | .Close _ => true
  | _ => false

/-- The fixed part of a `Process`: its store, over a state `W`, and `os.Stat` on that
state. -/
structure Process (W : Type) where
  cache : Storage W
  verbose : Bool
  Stat : W → String → Except Error FileInfo

/-- The mutable part of a `Process`: the state of its store, the `sync.Once` named `closer`
(`closerDone` once its function has run), the field `errClose`, and the record of the calls
made on the store. -/
structure ProcessState (W : Type) where
  world : W
  closerDone : Bool
  errClose : Option Error
  calls : List CacheCall

/-- Go `NewProcess`: the state of a new process on a store in state `w`. -/
def NewProcess {W : Type} (w : W) : ProcessState W := ⟨w, false, none, []⟩

/-- Go `Process.parseRequest`. -/
def Process.parseRequest (jd : Decoder) : Except Error Request × Decoder :=
  match jd.DecodeRequest with
  | (.error err, jd1) => (.error err, jd1)
  | (.ok req, jd1) =>
    if req.Command = cacheprog.CmdPut then
      if req.BodySize > 0 then
        match jd1.DecodeBytes with
        | (.error err, jd2) => (.error err, jd2)
        | (.ok bodyb, jd2) =>
          if (bodyb.length : Int) ≠ req.BodySize then
            (.error (Error.errorString ("only got " ++ toString bodyb.length ++
              " bytes of declared " ++ toString req.BodySize)), jd2)
          else (.ok { req with Body := some (bytes.NewReader bodyb) }, jd2)
      else (.ok req, jd1)
    else (.ok req, jd1)

/-- Go `Process.handleGet`: the response, the returned error and the state afterwards. -/
def Process.handleGet {W : Type} (p : Process W) (req : Request) (res : Response)
    (s : ProcessState W) : (Response × Option Error) × ProcessState W :=
  let actionID := hex.EncodeToString req.ActionID
  let ((outputID, diskPath, err), w) := p.cache.Get actionID s.world
  let s := { s with world := w, calls := s.calls ++ [.Get actionID] }
  match err with
  | some e => ((res, some e), s)
  | none =>
    if outputID = "" ∧ diskPath = "" then (({ res with Miss := true }, none), s)
    else if outputID = "" then ((res, some Error.ErrNoOutputID), s)
    else
      let res := { res with OutputID := (hex.DecodeString outputID).1 }
      match (hex.DecodeString outputID).2 with
      | some e => ((res, some (Error.wrapError "invalid OutputID: " e)), s)
      | none =>
        match p.Stat s.world diskPath with
        | .error e =>
          if os.IsNotExist e then (({ res with Miss := true }, none), s)
          else ((res, some e), s)
        | .ok fi =>
          if !fi.IsRegular then ((res, some (Error.errorString "not a regular file")), s)
          else (({ res with Size := fi.Size, DiskPath := diskPath }, none), s)

/-- Go `Process.handlePut`: the response and the returned error, `none` when the `Put` of
the store never returns, and the state afterwards. -/
def Process.handlePut {W : Type} (p : Process W) (req : Request) (res : Response)
    (s : ProcessState W) : Option (Response × Option Error) × ProcessState W :=
  let actionID := hex.EncodeToString req.ActionID
  let outputID := hex.EncodeToString req.OutputID
  let body : Reader :=
    match req.Body with
    | none => bytes.NewReader []
    | some b => b
  match p.cache.Put actionID outputID req.BodySize body s.world with
  | none => (none, { s with calls := s.calls ++ [.Put actionID outputID] })
  | some ((diskPath, err), w) =>
    let s := { s with world := w, calls := s.calls ++ [.Put actionID outputID] }
    match err with
    | some e => (some (res, some e), s)
    | none =>
      match p.Stat s.world diskPath with
      | .error e => (some (res, some (Error.wrapError "stat after successful Put: " e)), s)
      | .ok fi =>
        if fi.Size ≠ req.BodySize then
          (some (res, some (Error.errorString
            ("failed to write file to disk with right size: disk=" ++ toString fi.Size ++
              "; wanted=" ++ toString req.BodySize))), s)
        else (some ({ res with DiskPath := diskPath }, none), s)

/-- Go `Process.close`: the function given to `closer.Do` runs on the first call only. -/
def Process.close {W : Type} (p : Process W) (s : ProcessState W) :
    Option Error × ProcessState W :=
  let s :=
    if s.closerDone then s
    else
      let (err, w) := p.cache.Close s.world
      { s with world := w, closerDone := true, errClose := err, calls := s.calls ++ [.Close err] }
  (s.errClose, s)

/-- Go `Process.handleRequest`: the response and the returned error, `none` when the
handler never returns, and the state afterwards. -/
def Process.handleRequest {W : Type} (p : Process W) (req : Request) (res : Response)
    (s : ProcessState W) : Option (Response × Option Error) × ProcessState W :=
  if req.Command = cacheprog.CmdGet then
    let (out, s1) := p.handleGet req res s
    (some out, s1)
  else if req.Command = cacheprog.CmdPut then p.handlePut req res s
  else if req.Command = cacheprog.CmdClose then
    let (err, s1) := p.close s
    (some (res, err), s1)
  else (some (res, some Error.ErrUnknownCommand), s)

/-- What `Run` returns, with what it leaves behind: the state, the responses written, and
the number of tasks of its error group that never end. -/
structure RunResult (W : Type) where
  err : Option Error
  state : ProcessState W
  written : List Response
  blocked : Nat

/-- The task `Run` starts for a request: handles it and writes the response; no response
when the handler never returns. -/
def Process.serve {W : Type} (p : Process W) (req : Request) (s : ProcessState W) :
    Option Response × ProcessState W :=
  match p.handleRequest req (Response.new req.ID) s with
  | (none, s1) => (none, s1)
  | (some (res, some e), s1) => (some { res with Err := e.text }, s1)
  | (some (res, none), s1) => (some res, s1)

/-- The request loop of Go `Process.Run`, with the result of the `return` that leaves it.
Each task is run as far as it goes when it is started; `blocked` counts the tasks that never
end.  `fuel` bounds the number of turns; `none` means it ran out. -/
def Process.loop {W : Type} (p : Process W) :
    Nat → Decoder → ProcessState W → List Response → Nat → Option (RunResult W)
  | 0, _, _, _, _ => none
  | fuel + 1, jd, s, written, blocked =>
    match Process.parseRequest jd with
    | (.error err, _) =>
      if errors.IsEOF err then some ⟨none, s, written, blocked⟩
      else some ⟨some err, s, written, blocked⟩
    | (.ok req, jd1) =>
      match p.serve req s with
      | (some res, s1) => p.loop fuel jd1 s1 (written ++ [res]) blocked
      | (none, s1) => p.loop fuel jd1 s1 written (blocked + 1)

/-- Go `Process.Run` on the input `jd`; `none` when it never returns.  `encodeErr` and
`flushErr` are the failures of writing the handshake.  The deferred function closes the store
once the loop has returned and then waits for the tasks: it never returns when one of them
never ends.  The loop is given one turn more than there are values to read, which is
enough. -/
def Process.Run {W : Type} (p : Process W) (encodeErr flushErr : Option Error) (jd : Decoder)
    (s : ProcessState W) : Option (RunResult W) :=
  let caps := [cacheprog.CmdGet, cacheprog.CmdPut, cacheprog.CmdClose]
  match encodeErr with
  | some err => some ⟨some err, s, [], 0⟩
  | none =>
    let handshake : Response := { Response.new 0 with KnownCommands := caps }
    match flushErr with
    | some err => some ⟨some err, s, [], 0⟩
    | none =>
      let (err, w) := p.cache.Start s.world
      let s := { s with world := w, calls := s.calls ++ [.Start] }
      match err with
      | some e => some ⟨some e, s, [handshake], 0⟩
      | none =>
        match p.loop (jd.values.length + 1) jd s [handshake] 0 with
        | none => none
        | some r =>
          if r.blocked = 0 then some { r with state := (p.close r.state).2 } else none

/-- The requests `reqs` handled one after the other, each on a new response: for each the
returned error, `none` when the handler never returns, and the state afterwards. -/
def Process.handleAll {W : Type} (p : Process W) :
    List Request → ProcessState W → List (Option (Option Error)) × ProcessState W
  | [], s => ([], s)
  | req :: reqs, s =>
    let (out, s1) := p.handleRequest req (Response.new req.ID) s
    let (errs, s2) := p.handleAll reqs s1
    (out.map (fun x => x.2) :: errs, s2)

/-- A `Process` on a `Disk` alone: `os.Stat` reads the file system of the store. -/
def Disk.process (d : Disk) (J : JSON) (envs : Int → PutEnv) (verbose : Bool) :
    Process DiskState where
  cache := (d.storage J envs).toStorage
  verbose := verbose
  Stat s path := os.Stat s.fs path

/-! ## Auxiliary definitions and sample values -/

/-- The file system after the first half of `Disk.Put`, the write of the object file, when it
succeeds: the object file holds the body (nothing, for `size == 0`). -/
def Disk.objectWritten (d : Disk) (objectID : String) (size : Int) (body : Reader)
    (fs : FS) : FS :=
  fs.set (d.objectFile objectID) (some (.file (if size = 0 then [] else body.data)))

/-- A cache directory. -/
def sampleDisk : Disk := ⟨"cache", false⟩

/-- An environment in which no call fails. -/
def sampleEnv : PutEnv :=
  ⟨12, none, ⟨"101", none, none, 0, none⟩, ⟨"202", none, none, 0, none⟩⟩

/-- An empty file system, no call counted. -/
def emptyState : DiskState := ⟨fun _ => none, ⟨0, 0, 0, 0, 0, 0⟩⟩

/-- The cache directory, empty, no call counted. -/
def cacheState : DiskState :=
  ⟨fun q => if q = "cache" then some Node.dir else none, ⟨0, 0, 0, 0, 0, 0⟩⟩

/-- The bytes of `hello`. -/
def helloBytes : Bytes := [104, 101, 108, 108, 111]

/-- A state whose index file for action `aa` names the output `zz`, which is not
hexadecimal. -/
def nonHexState : DiskState :=
  ⟨fun q => if q = "cache/a-aa" then
      (match json.reference.Marshal ⟨1, "zz", 0, 0⟩ with
        | .ok b => some (Node.file b)
        | .error _ => none)
    else if q = "cache" then some Node.dir
    else none, ⟨0, 0, 0, 0, 0, 0⟩⟩

/-- A `Process` on the sample disk. -/
def sampleProcess : Process DiskState := sampleDisk.process json.reference (fun _ => sampleEnv) false

/-- A put request that declares a body of five bytes. -/
def samplePut : Request := ⟨1, "put", [170], [187], 5, none⟩

/-- The `Close` calls recorded in a state. -/
def ProcessState.closes {W : Type} (s : ProcessState W) : List CacheCall :=
  s.calls.filter CacheCall.isClose

/-- The state of the `closer` agrees with the record: nothing closed yet, or closed once with
the error now in `errClose`. -/
def ProcessState.closerInv {W : Type} (s : ProcessState W) : Prop :=
  (s.closerDone = false ∧ s.closes = []) ∨
    (s.closerDone = true ∧ s.closes = [CacheCall.Close s.errClose])

/-- A close request. -/
def sampleClose : Request := ⟨2, "close", [], [], 0, none⟩

/-- A local tier that returns the given results, reads every body to its end, and has no
state. -/
def fixedLocal (start : Option Error) (get : String × String × Option Error)
    (put : String × Option Error) (close : Option Error) : PipeStorage Unit where
  Start _ := (start, ())
  Get _ _ := (get, ())
  Put _ _ _ _ _ := some (put, ())
  PutReads _ _ _ body _ := body.data.length
  PutUnjoined _ _ _ _ _ := ()
  Close _ := (close, ())

/-- A remote tier that returns the given results and has no state. -/
def fixedRemote (start : Option Error) (get : String × Int × Option Reader × Option Error)
    (put : Option Error × Nat) (close : Option Error) : RemoteStorage Unit where
  Start _ := (start, ())
  Get _ _ := (get, ())
  Put _ _ _ _ _ := (put, ())
  Close _ := (close, ())

/-- A remote failure. -/
def remoteDown : Error := Error.errorString "remote unavailable"

/-- The cache directory in which action `aa` already has an index file, holding `old`. -/
def staleState : DiskState :=
  ⟨fun q => if q = "cache/a-aa" then some (Node.file [111, 108, 100])
    else if q = "cache" then some Node.dir
    else none,
    ⟨0, 0, 0, 0, 0, 0⟩⟩

/-- A `Process` on a `MergeRemote` whose local tier works on a `DiskState`: `os.Stat` reads
the file system of the local tier. -/
def MergeRemote.process {R : Type} (m : MergeRemote DiskState R) (verbose : Bool) :
    Process (MergeState DiskState R) where
  cache := m.storage
  verbose := verbose
  Stat s path := os.Stat s.l.fs path

/-- A state whose index file for action `aa` holds three bytes that are not an entry. -/
def corruptState : DiskState :=
  ⟨fun q => if q = "cache/a-aa" then some (Node.file [111, 108, 100])
    else if q = "cache" then some Node.dir
    else none,
    ⟨4, 0, 1, 0, 0, 0⟩⟩

/-- A get request for the action whose identifier prints as `aa`. -/
def sampleGet : Request := ⟨3, "get", [170], [], 0, none⟩

/-- A remote tier that holds the output `bb` of five bytes for every action. -/
def remoteHit : RemoteStorage Unit :=
  fixedRemote none ("bb", 5, some (bytes.NewReader helloBytes), none) (none, 0) none

/-- What `filepath.Join(dir, name)` puts before a `name` of one element: the cleaned `dir`
and a separator. -/
def filepath.entryBase (dir : String) : List Char :=
  if dir = "" then []
  else (if dir.data.head? = some '/' then ['/'] else []) ++
    (filepath.cleanElems dir.data).flatMap fun e => e ++ ['/']

/-- A remote tier whose `Put` reads five bytes of the body and succeeds. -/
def remoteTakesAll : RemoteStorage Unit :=
  fixedRemote none ("", 0, none, none) (none, 5) none

/-- A remote tier whose `Put` reads five bytes of the body and then fails. -/
def remoteFailsLate : RemoteStorage Unit :=
  fixedRemote none ("", 0, none, none) (some remoteDown, 5) none

/-! ## File names -/

theorem filepath.splitElems_ne_nil (cs : List Char) : filepath.splitElems cs ≠ [] := by
  cases cs with
  | nil => simp [filepath.splitElems]
  | cons c cs =>
    unfold filepath.splitElems
    split
    · simp
    · split <;> simp

/-- A run of characters without a separator is one element. -/
theorem filepath.splitElems_one (n : List Char) (h : '/' ∉ n) :
    filepath.splitElems n = [n] := by
  induction n with
  | nil => rfl
  | cons c cs ih =>
    have hc : c ≠ '/' := fun hc => h (by simp [hc])
    have hcs : '/' ∉ cs := fun hcs => h (List.mem_cons_of_mem _ hcs)
    simp [filepath.splitElems, hc, ih hcs]

/-- A separator and a last run without separators add one element. -/
theorem filepath.splitElems_append (xs n : List Char) (h : '/' ∉ n) :
    filepath.splitElems (xs ++ '/' :: n) = filepath.splitElems xs ++ [n] := by
  induction xs with
  | nil => simp [filepath.splitElems, filepath.splitElems_one n h]
  | cons c cs ih =>
    by_cases hc : c = '/'
    · simp [filepath.splitElems, hc, ih]
    · rcases hs : filepath.splitElems cs with _ | ⟨e, es⟩
      · exact absurd hs (filepath.splitElems_ne_nil cs)
      · simp [filepath.splitElems, hc, ih, hs]

/-- An element that is not empty, `.` or `..` is written. -/
theorem filepath.cleanStep_entry (rooted : Bool) (out : List (List Char)) (n : List Char)
    (h0 : n ≠ []) (h1 : n ≠ ['.']) (h2 : n ≠ ['.', '.']) :
    filepath.cleanStep rooted out n = out ++ [n] := by
  simp [filepath.cleanStep, h0, h1, h2]

theorem filepath.joinElems_append (out : List (List Char)) (n : List Char) :
    filepath.joinElems (out ++ [n]) = (out.flatMap fun e => e ++ ['/']) ++ n := by
  induction out with
  | nil => simp [filepath.joinElems]
  | cons e es ih =>
    rcases hes : es ++ [n] with _ | ⟨x, xs⟩
    · simp at hes
    · rw [List.cons_append, hes, filepath.joinElems, ← hes, ih]
      · simp
      · simp

/-- `filepath.Join(dir, name)` for a `name` of one element that is not `.` or `..`: the
cleaned `dir`, a separator, and `name` as it is. -/
theorem filepath.Join_entry (dir name : String) (hs : '/' ∉ name.data)
    (h0 : name.data ≠ []) (h1 : name.data ≠ ['.']) (h2 : name.data ≠ ['.', '.']) :
    filepath.Join dir name = String.mk (filepath.entryBase dir ++ name.data) := by
  have hname : name ≠ "" := fun h => h0 (by rw [h])
  by_cases hd : dir = ""
  · have hhead : name.data.head? ≠ some '/' := by
      intro hh
      rcases hn : name.data with _ | ⟨c, cs⟩
      · exact h0 hn
      · rw [hn] at hh hs
        simp at hh
        exact hs (by simp [hh])
    simp only [filepath.Join, hd, ne_eq, not_true_eq_false, if_false, hname, not_false_eq_true,
      if_true, filepath.Clean, filepath.entryBase, filepath.cleanElems, hhead,
      filepath.splitElems_one _ hs, List.foldl_cons, List.foldl_nil,
      filepath.cleanStep_entry _ _ _ h0 h1 h2, List.nil_append, filepath.joinElems, h0]
  · have hdata : dir.data ≠ [] := fun h => hd (by
      cases dir; simp only at h; subst h; rfl)
    have hne : dir ++ "/" ++ name ≠ "" := by
      intro h
      have := congrArg String.data h
      simp [String.data_append] at this
    have happ : (dir ++ "/" ++ name).data = dir.data ++ '/' :: name.data := by
      simp [String.data_append]
    have hhead : (dir.data ++ '/' :: name.data).head? = dir.data.head? := by
      rcases hx : dir.data with _ | ⟨c, cs⟩
      · exact absurd hx hdata
      · rfl
    simp only [filepath.Join, hd, ne_eq, not_false_eq_true, if_true, filepath.Clean, hne,
      if_false, happ, hhead, filepath.entryBase, filepath.cleanElems,
      filepath.splitElems_append _ _ hs, List.foldl_append, List.foldl_cons, List.foldl_nil,
      filepath.cleanStep_entry _ _ _ h0 h1 h2, filepath.joinElems_append]
    rw [if_neg]
    · simp
    · simp [h0]

/-- The name of an index or object file, `a-` or `o-` and an identifier without a
separator, is one element that is not `.` or `..`. -/
theorem entry_name (c : Char) (id : String) (hid : '/' ∉ id.data) (hc : c ≠ '/')
    (hdot : c ≠ '.') :
    '/' ∉ (String.mk [c, '-'] ++ id).data ∧ (String.mk [c, '-'] ++ id).data ≠ [] ∧
    (String.mk [c, '-'] ++ id).data ≠ ['.'] ∧ (String.mk [c, '-'] ++ id).data ≠ ['.', '.'] := by
  simp [String.data_append, hid, hc.symm, hdot]

/-- The index file of an action and the object file of an output are different files when
neither identifier holds a separator. -/
theorem actionFile_ne_objectFile (d : Disk) (actionID outputID : String)
    (ha : '/' ∉ actionID.data) (ho : '/' ∉ outputID.data) :
    d.actionFile actionID ≠ d.objectFile outputID := by
  obtain ⟨a1, a2, a3, a4⟩ := entry_name 'a' actionID ha (by decide) (by decide)
  obtain ⟨o1, o2, o3, o4⟩ := entry_name 'o' outputID ho (by decide) (by decide)
  have hA : d.actionFile actionID =
      String.mk (filepath.entryBase d.dir ++ (String.mk ['a', '-'] ++ actionID).data) :=
    filepath.Join_entry d.dir _ a1 a2 a3 a4
  have hO : d.objectFile outputID =
      String.mk (filepath.entryBase d.dir ++ (String.mk ['o', '-'] ++ outputID).data) :=
    filepath.Join_entry d.dir _ o1 o2 o3 o4
  rw [hA, hO]
  intro heq
  have h1 := congrArg String.data heq
  simp [String.data_append] at h1

/-- The path of an object file is never empty when the identifier holds no separator. -/
theorem objectFile_ne_empty (d : Disk) (outputID : String) (ho : '/' ∉ outputID.data) :
    d.objectFile outputID ≠ "" := by
  obtain ⟨o1, o2, o3, o4⟩ := entry_name 'o' outputID ho (by decide) (by decide)
  have hO : d.objectFile outputID =
      String.mk (filepath.entryBase d.dir ++ (String.mk ['o', '-'] ++ outputID).data) :=
    filepath.Join_entry d.dir _ o1 o2 o3 o4
  rw [hO]
  intro heq
  have h1 := congrArg String.data heq
  simp [String.data_append] at h1

/-! ## Atomic writes -/

theorem FS.set_same (fs : FS) (path : String) (node : Option Node) :
    fs.set path node path = node := by
  simp [FS.set]

theorem FS.set_other (fs : FS) (path q : String) (node : Option Node) (h : q ≠ path) :
    fs.set path node q = fs q := by
  simp [FS.set, h]

/-- Creating a file that did not exist and removing it again leaves the file system as it
was. -/
theorem FS.set_set_none (fs : FS) (path : String) (a b : Option Node) (h : fs path = none) :
    ((fs.set path a).set path b).set path none = fs := by
  funext q
  by_cases hq : q = path
  · subst hq; simp [FS.set, h]
  · simp [FS.set, hq]

theorem os.CreateTemp_ok (fault : Option Error) (rnd : String) (fs fs1 : FS)
    (dest name : String) (h : os.CreateTemp fault rnd fs dest = .ok (name, fs1)) :
    fs name = none ∧ fs1 = fs.set name (some (.file [])) := by
  unfold os.CreateTemp at h
  split at h
  · simp at h
  · split at h
    · simp at h
    · split at h
      · simp at h
      · simp only at h
        split at h
        · simp at h
        · rename_i hnone
          simp only [Except.ok.injEq, Prod.mk.injEq] at h
          obtain ⟨rfl, rfl⟩ := h
          exact ⟨hnone, rfl⟩

theorem io.Copy_ok (fault : Option Error) (fs fs1 : FS) (name : String) (r : Reader)
    (n : Int) (h : io.Copy fault fs name r = .ok (n, fs1)) :
    r.err = none ∧ n = (r.data.length : Int) ∧ fs1 = fs.set name (some (.file r.data)) := by
  unfold io.Copy at h
  split at h
  · simp at h
  · rename_i hnone
    split at h
    · simp at h
    · simp only [Except.ok.injEq, Prod.mk.injEq] at h
      exact ⟨hnone, h.1.symm, h.2.symm⟩

theorem os.Rename_ok (fault : Option Error) (fs fs1 : FS) (src dest : String)
    (h : os.Rename fault fs src dest = .ok fs1) :
    fs1 = if src = dest then fs else (fs.set dest (fs src)).set src none := by
  unfold os.Rename at h
  split at h
  · simp at h
  · split at h
    · simp at h
    · simp at h
    · rename_i node hsrc _
      by_cases hsd : src = dest
      · simp only [hsd, if_true, Except.ok.injEq] at h ⊢
        exact h.symm
      · simp only [hsd, if_false, Except.ok.injEq] at h ⊢
        rw [hsrc]
        exact h.symm

theorem os.OpenFileTrunc_ok (fault : Option Error) (fs fs1 : FS) (path : String)
    (h : os.OpenFileTrunc fault fs path = .ok fs1) :
    fs1 = fs.set path (some (.file [])) := by
  unfold os.OpenFileTrunc at h
  split at h
  · simp at h
  · split at h
    · simp at h
    · split at h
      · simp at h
      · simp only [Except.ok.injEq] at h
        exact h.symm

/-- A failed `writeAtomic` leaves the file system as it was. -/
theorem writeAtomic_error (env : WriteEnv) (fs fs1 : FS) (dest : String) (r : Reader)
    (err : Error) (h : writeAtomic env fs dest r = (.error err, fs1)) : fs1 = fs := by
  unfold writeAtomic writeTempFile at h
  rcases hc : os.CreateTemp env.createErr env.rnd fs dest with e | ⟨name, fsa⟩
  · simp only [hc, Prod.mk.injEq] at h
    exact h.2.symm
  · obtain ⟨hnone, rfl⟩ := os.CreateTemp_ok _ _ _ _ _ _ hc
    rcases hcp : io.Copy env.copyErr (fs.set name (some (.file []))) name r with e | ⟨n, fsb⟩
    · simp only [hc, hcp, Prod.mk.injEq] at h
      rw [← h.2]
      funext q
      by_cases hq : q = name <;> simp [os.Remove, FS.set, hq, hnone]
    · obtain ⟨-, -, rfl⟩ := io.Copy_ok _ _ _ _ _ _ hcp
      rcases hr : os.Rename env.renameErr
          ((fs.set name (some (.file []))).set name (some (.file r.data))) name dest
          with e | fsc
      · simp only [hc, hcp, hr, Prod.mk.injEq] at h
        rw [← h.2]
        exact FS.set_set_none fs name _ _ hnone
      · simp [hc, hcp, hr] at h

/-- A successful `writeAtomic` read the whole of `r`, reports its length, and leaves `dest`
holding its bytes and everything else as it was. -/
theorem writeAtomic_ok (env : WriteEnv) (fs fs1 : FS) (dest : String) (r : Reader)
    (n : Int) (h : writeAtomic env fs dest r = (.ok n, fs1)) :
    r.err = none ∧ n = (r.data.length : Int) ∧ fs1 = fs.set dest (some (.file r.data)) := by
  unfold writeAtomic writeTempFile at h
  rcases hc : os.CreateTemp env.createErr env.rnd fs dest with e | ⟨name, fsa⟩
  · simp [hc] at h
  · obtain ⟨hnone, rfl⟩ := os.CreateTemp_ok _ _ _ _ _ _ hc
    rcases hcp : io.Copy env.copyErr (fs.set name (some (.file []))) name r with e | ⟨m, fsb⟩
    · simp [hc, hcp] at h
    · obtain ⟨herr, rfl, rfl⟩ := io.Copy_ok _ _ _ _ _ _ hcp
      rcases hr : os.Rename env.renameErr
          ((fs.set name (some (.file []))).set name (some (.file r.data))) name dest
          with e | fsc
      · simp [hc, hcp, hr] at h
      · have hfsc := os.Rename_ok _ _ _ _ _ hr
        simp only [hc, hcp, hr, Prod.mk.injEq, Except.ok.injEq] at h
        obtain ⟨rfl, rfl⟩ := h
        refine ⟨herr, rfl, ?_⟩
        rw [hfsc]
        funext q
        by_cases hsd : name = dest
        · subst hsd
          by_cases hq : q = name <;> simp [FS.set, hq]
        · by_cases hq : q = name
          · subst hq
            simp [FS.set, hsd, hnone]
          · have hds : ¬dest = name := fun h => hsd h.symm
            by_cases hq2 : q = dest <;> simp [FS.set, hq, hq2, hsd, hds]

/-- What a `Disk.Put` that returns no error has done. -/
theorem Disk.Put_ok (d : Disk) (J : JSON) (env : PutEnv) (actionID objectID : String)
    (size : Int) (body : Reader) (s s1 : DiskState) (path : String)
    (h : d.Put J env actionID objectID size body s = ((path, none), s1)) :
    path = d.objectFile objectID ∧
    (size ≠ 0 → body.err = none ∧ (body.data.length : Int) = size) ∧
    ∃ ij, J.Marshal ⟨1, objectID, size, env.now⟩ = .ok ij ∧
      s1.fs = (d.objectWritten objectID size body s.fs).set (d.actionFile actionID)
        (some (.file ij)) := by
  unfold Disk.Put at h
  by_cases hs : size = 0
  · rcases ho : os.OpenFileTrunc env.openErr s.fs (d.objectFile objectID) with e | fs1
    · simp [hs, ho] at h
    · rcases hm : J.Marshal ⟨1, objectID, 0, env.now⟩ with e | ij
      · simp [hs, ho, hm] at h
      · rcases hw : writeAtomic env.index fs1 (d.actionFile actionID) (bytes.NewReader ij)
          with ⟨e | n, fs2⟩
        · simp [hs, ho, hm, hw] at h
        · simp [hs, ho, hm, hw] at h
          obtain ⟨hp, hs1⟩ := h
          obtain ⟨-, -, hfs2⟩ := writeAtomic_ok _ _ _ _ _ _ hw
          refine ⟨hp.symm, fun hne => absurd hs hne, ij, by rw [hs]; exact hm, ?_⟩
          have hfs1 : fs1 = d.objectWritten objectID size body s.fs := by
            rw [os.OpenFileTrunc_ok _ _ _ _ ho]
            simp [Disk.objectWritten, hs]
          rw [← hs1, ← hfs1, hfs2]
          rfl
  · rcases hw : writeAtomic env.object s.fs (d.objectFile objectID) body with ⟨e | wrote, fs1⟩
    · simp [hs, hw] at h
    · obtain ⟨herr, hwrote, hfs1⟩ := writeAtomic_ok _ _ _ _ _ _ hw
      by_cases hws : wrote = size
      · rcases hm : J.Marshal ⟨1, objectID, size, env.now⟩ with e | ij
        · simp [hs, hw, hws, hm] at h
        · rcases hw2 : writeAtomic env.index fs1 (d.actionFile actionID) (bytes.NewReader ij)
            with ⟨e | n, fs2⟩
          · simp [hs, hw, hws, hm, hw2] at h
          · simp [hs, hw, hws, hm, hw2] at h
            obtain ⟨hp, hs1⟩ := h
            obtain ⟨-, -, hfs2⟩ := writeAtomic_ok _ _ _ _ _ _ hw2
            refine ⟨hp.symm, fun _ => ⟨herr, by rw [← hwrote, hws]⟩, ij, rfl, ?_⟩
            rw [← hs1, hfs2, hfs1]
            simp [Disk.objectWritten, hs, bytes.NewReader]
      · simp [hs, hw, hws] at h

/-- A `Disk.Put` that returns an error leaves the index file of the action as it was, when
the index file and the object file are different files. -/
theorem Disk.Put_error (d : Disk) (J : JSON) (env : PutEnv) (actionID objectID : String)
    (size : Int) (body : Reader) (s s1 : DiskState) (path : String) (err : Error)
    (hao : d.actionFile actionID ≠ d.objectFile objectID)
    (h : d.Put J env actionID objectID size body s = ((path, some err), s1)) :
    path = "" ∧ s1.fs (d.actionFile actionID) = s.fs (d.actionFile actionID) := by
  unfold Disk.Put at h
  by_cases hs : size = 0
  · rcases ho : os.OpenFileTrunc env.openErr s.fs (d.objectFile objectID) with e | fs1
    · simp [hs, ho, DiskState.putError] at h
      obtain ⟨⟨hp, -⟩, hs1⟩ := h
      exact ⟨hp.symm, by rw [← hs1]⟩
    · have hfs1 : fs1 (d.actionFile actionID) = s.fs (d.actionFile actionID) := by
        rw [os.OpenFileTrunc_ok _ _ _ _ ho]
        simp [FS.set, hao]
      rcases hm : J.Marshal ⟨1, objectID, 0, env.now⟩ with e | ij
      · simp [hs, ho, hm, DiskState.putError] at h
        obtain ⟨⟨hp, -⟩, hs1⟩ := h
        exact ⟨hp.symm, by rw [← hs1]; exact hfs1⟩
      · rcases hw : writeAtomic env.index fs1 (d.actionFile actionID) (bytes.NewReader ij)
          with ⟨e | n, fs2⟩
        · simp [hs, ho, hm, hw, DiskState.putError] at h
          obtain ⟨⟨hp, -⟩, hs1⟩ := h
          have := writeAtomic_error _ _ _ _ _ _ hw
          exact ⟨hp.symm, by rw [← hs1]; simp [this, hfs1]⟩
        · simp [hs, ho, hm, hw] at h
  · rcases hw : writeAtomic env.object s.fs (d.objectFile objectID) body with ⟨e | wrote, fs1⟩
    · simp [hs, hw, DiskState.putError] at h
      obtain ⟨⟨hp, -⟩, hs1⟩ := h
      have := writeAtomic_error _ _ _ _ _ _ hw
      exact ⟨hp.symm, by rw [← hs1]; simp [this]⟩
    · obtain ⟨herr, hwrote, hfs1⟩ := writeAtomic_ok _ _ _ _ _ _ hw
      have hfs1a : fs1 (d.actionFile actionID) = s.fs (d.actionFile actionID) := by
        rw [hfs1]; simp [FS.set, hao]
      by_cases hws : wrote = size
      · rcases hm : J.Marshal ⟨1, objectID, size, env.now⟩ with e | ij
        · simp [hs, hw, hws, hm, DiskState.putError] at h
          obtain ⟨⟨hp, -⟩, hs1⟩ := h
          exact ⟨hp.symm, by rw [← hs1]; exact hfs1a⟩
        · rcases hw2 : writeAtomic env.index fs1 (d.actionFile actionID) (bytes.NewReader ij)
            with ⟨e | n, fs2⟩
          · simp [hs, hw, hws, hm, hw2, DiskState.putError] at h
            obtain ⟨⟨hp, -⟩, hs1⟩ := h
            have := writeAtomic_error _ _ _ _ _ _ hw2
            exact ⟨hp.symm, by rw [← hs1]; simp [this, hfs1a]⟩
          · simp [hs, hw, hws, hm, hw2] at h
      · simp [hs, hw, hws, DiskState.putError] at h
        obtain ⟨⟨hp, -⟩, hs1⟩ := h
        exact ⟨hp.symm, by rw [← hs1]; exact hfs1a⟩

/-! ## C1: round trip on the local disk store -/

/-- An identifier that `hex.Decode` accepts holds no separator. -/
theorem hex.decodeChars_no_sep :
    ∀ cs : List Char, (hex.decodeChars cs).2 = none → '/' ∉ cs
  | [], _ => by simp
  | [c], h => by
    unfold hex.decodeChars at h
    split at h <;> simp at h
  | a :: b :: rest, h => by
    have ih := hex.decodeChars_no_sep rest
    have hsep : hex.fromHexChar '/' = none := by decide
    unfold hex.decodeChars at h
    rcases ha : hex.fromHexChar a with _ | x
    · simp [ha] at h
    · rcases hb : hex.fromHexChar b with _ | y
      · simp [ha, hb] at h
      · simp only [ha, hb] at h
        have ha' : a ≠ '/' := fun e => by rw [e, hsep] at ha; cases ha
        have hb' : b ≠ '/' := fun e => by rw [e, hsep] at hb; cases hb
        simp only [List.mem_cons, not_or]
        exact ⟨fun e => ha' e.symm, fun e => hb' e.symm, ih h⟩

/-- C1, as stated, fails.  The action identifier `/../o-bb` makes `filepath.Join` clean the
name of the index file to `cache/o-bb`, the name of the object file of output `bb`.
`Disk.Put` of `hello` returns `cache/o-bb` without error and a `Disk.Get` of the action
returns that output and that path, but the file at that path holds the index entry, not the
five bytes of the body: `os.Stat` reports 29 bytes. -/
theorem Disk_Put_then_Get_counterexample :
    (sampleDisk.Put json.reference sampleEnv "/../o-bb" "bb" 5 (bytes.NewReader helloBytes)
      cacheState).1 = ("cache/o-bb", none) ∧
    (sampleDisk.Get json.reference "/../o-bb"
      (sampleDisk.Put json.reference sampleEnv "/../o-bb" "bb" 5 (bytes.NewReader helloBytes)
        cacheState).2).1 = ("bb", "cache/o-bb", none) ∧
    (sampleDisk.Put json.reference sampleEnv "/../o-bb" "bb" 5 (bytes.NewReader helloBytes)
      cacheState).2.fs "cache/o-bb" ≠ some (Node.file helloBytes) ∧
    os.Stat (sampleDisk.Put json.reference sampleEnv "/../o-bb" "bb" 5
      (bytes.NewReader helloBytes) cacheState).2.fs "cache/o-bb" = .ok ⟨true, 29⟩ := by
  refine ⟨by rfl, by rfl, by decide, by rfl⟩

/-- C1, amended.  Round trip on the local disk store, for every action identifier that holds
no path separator (as every identifier the protocol engine passes, which is hexadecimal),
every non-empty output identifier that `hex.DecodeString` accepts, and every body of exactly
`size` bytes (so `size >= 0`): if `Disk.Put` returns without error, then the path it returned
is `filepath.Join(dir, "o-<outputID>")`; a `Disk.Get` of the action that follows returns that
output identifier and that path with no error; the file at that path holds exactly the bytes
of the body; and `handleGet` on a request for the action answers with no error,
`Miss == false`, `Size == size`, that path and the decoded output identifier.  The codec is
any one that reads back the entry it has written. -/
theorem Disk_Put_then_Get (d : Disk) (J : JSON) (env : PutEnv) (actionID outputID : String)
    (size : Int) (body : Bytes) (s s1 : DiskState) (path : String)
    (hact : '/' ∉ actionID.data)
    (hne : outputID ≠ "") (hhex : (hex.DecodeString outputID).2 = none)
    (hbody : (body.length : Int) = size)
    (hJ : ∀ ij, J.Marshal ⟨1, outputID, size, env.now⟩ = .ok ij →
      J.Unmarshal ij = .ok ⟨1, outputID, size, env.now⟩)
    (hput : d.Put J env actionID outputID size (bytes.NewReader body) s = ((path, none), s1)) :
    path = filepath.Join d.dir ("o-" ++ outputID) ∧
    (d.Get J actionID s1).1 = (outputID, path, none) ∧
    (d.Get J actionID s1).2.fs path = some (Node.file body) ∧
    ∀ (envs : Int → PutEnv) (verbose : Bool) (req : Request) (ps : ProcessState DiskState),
      hex.EncodeToString req.ActionID = actionID → ps.world = s1 →
      ((d.process J envs verbose).handleGet req (Response.new req.ID) ps).1 =
        ({ Response.new req.ID with
            OutputID := (hex.DecodeString outputID).1, Size := size, DiskPath := path,
            Miss := false }, none) := by
  obtain ⟨hpath, -, ij, hm, hfs⟩ := Disk.Put_ok d J env actionID outputID size _ s s1 path hput
  have hout : '/' ∉ outputID.data := hex.decodeChars_no_sep _ hhex
  have hao := actionFile_ne_objectFile d actionID outputID hact hout
  have hidx : s1.fs (d.actionFile actionID) = some (Node.file ij) := by
    rw [hfs]; simp [FS.set]
  have hbody0 : (if size = 0 then [] else body) = body := by
    split
    · rename_i h0
      rw [h0] at hbody
      exact (List.length_eq_zero.mp (by exact_mod_cast hbody)).symm
    · rfl
  have hobj : s1.fs (d.objectFile outputID) = some (Node.file body) := by
    rw [hfs]
    simp [FS.set, hao.symm, Disk.objectWritten, bytes.NewReader, hbody0]
  have hget : d.Get J actionID s1 =
      ((outputID, path, none), { s1 with count := { s1.count with Gets := s1.count.Gets + 1 } }) := by
    simp [Disk.Get, os.ReadFile, hidx, hJ ij hm, hhex, hpath]
  have hpne : path ≠ "" := by
    rw [hpath]
    exact objectFile_ne_empty d outputID hout
  refine ⟨hpath, by rw [hget], by rw [hget, hpath]; exact hobj, ?_⟩
  intro envs verbose req ps hreq hw
  subst hpath
  simp [Process.handleGet, Disk.process, Disk.storage, hreq, hw, hget, hne, hhex, os.Stat,
    hpne, hobj, hbody, cacheprog.Response.new]

/-- C1 amended, evaluated: after putting `hello` as output `bb` of action `aa` into the empty
cache directory, `Get` finds `bb` at `cache/o-bb`. -/
theorem Disk_Put_then_Get_witness :
    (sampleDisk.Get json.reference "aa"
      (sampleDisk.Put json.reference sampleEnv "aa" "bb" 5 (bytes.NewReader helloBytes)
        cacheState).2).1 = ("bb", "cache/o-bb", none) :=
  (Disk_Put_then_Get sampleDisk json.reference sampleEnv "aa" "bb" 5 helloBytes cacheState
    (sampleDisk.Put json.reference sampleEnv "aa" "bb" 5 (bytes.NewReader helloBytes)
      cacheState).2 "cache/o-bb" (by decide) (by decide) (by decide) (by decide)
    (by intro ij h; cases h; rfl) (by rfl)).2.1

/-! ## C2: a missing or unusable index entry is a miss -/

/-- C2. `Disk.Get` never turns a missing or unusable index entry into an error.  For every
action: if the index file `a-<actionID>` does not exist, or it is a file whose contents
`json.Unmarshal` rejects, or it decodes to an entry whose `OutputID` `hex.DecodeString`
rejects, then `Disk.Get` returns an empty output identifier, an empty path and a nil error. -/
theorem Disk_Get_unusable_index_is_miss (d : Disk) (J : JSON) (actionID : String)
    (s : DiskState)
    (h : s.fs (d.actionFile actionID) = none ∨
      ∃ ij, s.fs (d.actionFile actionID) = some (Node.file ij) ∧
        ((∃ e, J.Unmarshal ij = .error e) ∨
          ∃ ie, J.Unmarshal ij = .ok ie ∧ (hex.DecodeString ie.OutputID).2 ≠ none)) :
    (d.Get J actionID s).1 = ("", "", none) := by
  rcases h with h | ⟨ij, hf, ⟨e, hu⟩ | ⟨ie, hu, hx⟩⟩
  · simp [Disk.Get, os.ReadFile, h, os.IsNotExist]
  · simp [Disk.Get, os.ReadFile, hf, hu]
  · rcases hd : (hex.DecodeString ie.OutputID).2 with _ | e
    · exact absurd hd hx
    · simp [Disk.Get, os.ReadFile, hf, hu, hd]

/-- C2, evaluated: a `Get` in an empty cache, and a `Get` of an index entry that names the
output `zz`, are misses. -/
theorem Disk_Get_unusable_index_is_miss_witness :
    (sampleDisk.Get json.reference "aa" emptyState).1 = ("", "", none) ∧
    (sampleDisk.Get json.reference "aa" nonHexState).1 = ("", "", none) :=
  ⟨Disk_Get_unusable_index_is_miss sampleDisk json.reference "aa" emptyState (Or.inl rfl),
    Disk_Get_unusable_index_is_miss sampleDisk json.reference "aa" nonHexState
      (Or.inr ⟨_, rfl, Or.inr ⟨⟨1, "zz", 0, 0⟩, rfl, by decide⟩⟩)⟩

/-! ## C3: the decision table of `handleGet` -/

/-- C3. `handleGet` implements the decision table, for every result
`(outputID, diskPath, err)` of the `Get` of the store, on the response `Run` hands it.
A store error is returned as the error.  With no error: an empty `outputID` and an empty
`diskPath` give `Miss = true` and no error; an empty `outputID` with a non-empty `diskPath`
gives the error `no outputID`; a non-empty `outputID` that `hex.DecodeString` rejects gives an
error; otherwise the path is stat'd in the state the `Get` left, and a missing file gives
`Miss = true` and no error, a file that is not regular gives an error, and a regular file
gives `Miss = false`, the size of the file, `diskPath` and the decoded `outputID`. -/
theorem handleGet_decision_table {W : Type} (p : Process W) (req : Request)
    (s : ProcessState W) :
    let g := p.cache.Get (hex.EncodeToString req.ActionID) s.world
    let outputID := g.1.1
    let diskPath := g.1.2.1
    let out := (p.handleGet req (Response.new req.ID) s).1
    (∀ e, g.1.2.2 = some e → out.2 = some e) ∧
    (g.1.2.2 = none → outputID = "" → diskPath = "" →
      out = ({ Response.new req.ID with Miss := true }, none)) ∧
    (g.1.2.2 = none → outputID = "" → diskPath ≠ "" →
      out.2 = some Error.ErrNoOutputID ∧ Error.ErrNoOutputID.text = "no outputID") ∧
    (g.1.2.2 = none → outputID ≠ "" → ∀ e, (hex.DecodeString outputID).2 = some e →
      out.2 = some (Error.wrapError "invalid OutputID: " e)) ∧
    (g.1.2.2 = none → outputID ≠ "" → (hex.DecodeString outputID).2 = none →
      (∀ e, p.Stat g.2 diskPath = .error e → os.IsNotExist e = true →
        out.1.Miss = true ∧ out.2 = none) ∧
      (∀ fi, p.Stat g.2 diskPath = .ok fi → fi.IsRegular = false →
        out.2 = some (Error.errorString "not a regular file")) ∧
      (∀ fi, p.Stat g.2 diskPath = .ok fi → fi.IsRegular = true →
        out = ({ Response.new req.ID with
          Miss := false, Size := fi.Size, DiskPath := diskPath,
          OutputID := (hex.DecodeString outputID).1 }, none))) := by
  intro g outputID diskPath out
  have hg : p.cache.Get (hex.EncodeToString req.ActionID) s.world =
      ((outputID, diskPath, g.1.2.2), g.2) := rfl
  refine ⟨?_, ?_, ?_, ?_, ?_⟩
  · intro e he
    simp only [out, Process.handleGet, hg, he]
  · intro he ho hp
    simp [out, Process.handleGet, hg, he, ho, hp]
  · intro he ho hp
    simp [out, Process.handleGet, hg, he, ho, hp, Error.text]
  · intro he ho e hd
    simp [out, Process.handleGet, hg, he, ho, hd]
  · intro he ho hd
    refine ⟨?_, ?_, ?_⟩
    · intro e hst hne
      simp [out, Process.handleGet, hg, he, ho, hd, hst, hne]
    · intro fi hst hreg
      simp [out, Process.handleGet, hg, he, ho, hd, hst, hreg]
    · intro fi hst hreg
      simp [out, Process.handleGet, hg, he, ho, hd, hst, hreg, cacheprog.Response.new]

/-! ## The request loop returns -/

/-- A `parseRequest` that gives a request has read at least one value. -/
theorem parseRequest_ok_length (jd jd1 : Decoder) (req : Request)
    (h : Process.parseRequest jd = (.ok req, jd1)) :
    jd1.values.length < jd.values.length := by
  unfold Process.parseRequest Decoder.DecodeRequest at h
  rcases hv : jd.values with _ | ⟨v, rest⟩
  · simp [hv] at h
  · rcases hr : v.asRequest with _ | r
    · simp [hv, hr] at h
    · simp only [hv, hr] at h
      by_cases hc : r.Command = cacheprog.CmdPut
      · by_cases hb : r.BodySize > 0
        · simp only [hc, hb, if_true, Decoder.DecodeBytes] at h
          rcases rest with _ | ⟨v2, rest2⟩
          · simp at h
          · rcases hb2 : v2.asBytes with _ | b
            · simp [hb2] at h
            · simp only [hb2] at h
              split at h
              · simp at h
              · simp only [Prod.mk.injEq, Except.ok.injEq] at h
                rw [← h.2]
                simp only [List.length_cons]
                omega
        · simp only [hc, hb, if_true, if_false, Prod.mk.injEq, Except.ok.injEq] at h
          rw [← h.2]
          simp
      · simp only [hc, if_false, Prod.mk.injEq, Except.ok.injEq] at h
        rw [← h.2]
        simp

/-- The loop returns whenever it is given more turns than there are values to read. -/
theorem loop_returns {W : Type} (p : Process W) :
    ∀ (fuel : Nat) (jd : Decoder) (s : ProcessState W) (written : List Response)
      (blocked : Nat),
      jd.values.length < fuel → (p.loop fuel jd s written blocked).isSome = true := by
  intro fuel
  induction fuel with
  | zero => intro jd s written blocked h; omega
  | succ fuel ih =>
    intro jd s written blocked h
    unfold Process.loop
    rcases hp : Process.parseRequest jd with ⟨e | req, jd1⟩
    · simp only
      split <;> rfl
    · simp only
      have := parseRequest_ok_length jd jd1 req hp
      split
      · exact ih jd1 _ _ _ (by omega)
      · exact ih jd1 _ _ _ (by omega)

/-- On a store whose `Put` always returns, every task ends. -/
theorem serve_returns {W : Type} (p : Process W)
    (hput : ∀ a o n b w, (p.cache.Put a o n b w).isSome = true) (req : Request)
    (s : ProcessState W) : (p.serve req s).1.isSome = true := by
  have hreq : (p.handleRequest req (Response.new req.ID) s).1.isSome = true := by
    unfold Process.handleRequest
    split
    · rfl
    · split
      · unfold Process.handlePut
        simp only
        split
        · rename_i heq
          have h := congrArg Option.isSome heq
          rw [hput] at h
          exact absurd h (Bool.noConfusion)
        · split
          · rfl
          · split
            · rfl
            · split <;> rfl
      · split <;> rfl
  unfold Process.serve
  split
  · rename_i heq
    rw [heq] at hreq
    exact absurd hreq (Bool.noConfusion)
  · rfl
  · rfl

/-- On a store whose `Put` always returns, the loop leaves no task that never ends. -/
theorem loop_blocked {W : Type} (p : Process W)
    (hput : ∀ a o n b w, (p.cache.Put a o n b w).isSome = true) :
    ∀ (fuel : Nat) (jd : Decoder) (s : ProcessState W) (written : List Response)
      (blocked : Nat) (r : RunResult W),
      p.loop fuel jd s written blocked = some r → r.blocked = blocked := by
  intro fuel
  induction fuel with
  | zero => intro jd s written blocked r h; simp [Process.loop] at h
  | succ fuel ih =>
    intro jd s written blocked r h
    unfold Process.loop at h
    rcases hp : Process.parseRequest jd with ⟨e | req, jd1⟩
    · simp only [hp] at h
      split at h <;> (simp only [Option.some.injEq] at h; rw [← h])
    · simp only [hp] at h
      have hs := serve_returns p hput req s
      rcases hsv : p.serve req s with ⟨_ | res, s1⟩
      · rw [hsv] at hs
        exact absurd hs (Bool.noConfusion)
      · simp only [hsv] at h
        exact ih _ _ _ _ _ h

/-- `Run` returns on every input when the `Put` of the store always returns. -/
theorem Run_returns {W : Type} (p : Process W)
    (hput : ∀ a o n b w, (p.cache.Put a o n b w).isSome = true)
    (encodeErr flushErr : Option Error)
    (jd : Decoder) (s : ProcessState W) : (p.Run encodeErr flushErr jd s).isSome = true := by
  unfold Process.Run
  split
  · rfl
  · split
    · rfl
    · simp only
      split
      · rfl
      · split
        · rename_i heq
          have h := congrArg Option.isSome heq
          rw [loop_returns p _ jd _ _ _ (Nat.lt_succ_self _)] at h
          exact absurd h (Bool.noConfusion)
        · rename_i r heq
          rw [loop_blocked p hput _ _ _ _ _ r heq]
          rfl

/-! ## C4: framing errors -/

/-- C4, at the input on which the code departs from the claim.  The input holds a put request
with `BodySize > 0` and then ends cleanly, so no value follows that decodes as the body.
`parseRequest` fails, with the `io.EOF` of the second `Decode`; `Run` takes it for the end of
the input and returns nil, having written the handshake only. -/
theorem Run_put_header_then_end {W : Type} (p : Process W) (s : ProcessState W)
    (req : Request) (hcmd : req.Command = cacheprog.CmdPut) (hsize : 0 < req.BodySize)
    (hstart : (p.cache.Start s.world).1 = none) :
    (Process.parseRequest ⟨[⟨some req, none⟩], true⟩).1 = .error Error.EOF ∧
    (p.Run none none ⟨[⟨some req, none⟩], true⟩ s).map (fun r => (r.err, r.written)) =
      some (none, [{ Response.new 0 with KnownCommands := ["get", "put", "close"] }]) := by
  have hparse : Process.parseRequest ⟨[⟨some req, none⟩], true⟩ =
      (.error Error.EOF, ⟨[], true⟩) := by
    simp [Process.parseRequest, Decoder.DecodeRequest, Decoder.DecodeBytes, hcmd, hsize,
      Decoder.endError]
  refine ⟨by rw [hparse], ?_⟩
  rcases hst : p.cache.Start s.world with ⟨e, w⟩
  rw [hst] at hstart
  simp only at hstart
  subst hstart
  simp [Process.Run, hst, Process.loop, hparse, errors.IsEOF, cacheprog.CmdGet,
    cacheprog.CmdPut, cacheprog.CmdClose]

/-- C4, evaluated: on the sample disk, a put request declaring five bytes followed by the end
of the input makes `Run` return nil. -/
theorem Run_put_header_then_end_witness :
    (sampleProcess.Run none none ⟨[⟨some samplePut, none⟩], true⟩ (NewProcess emptyState)).map
      (fun r => r.err) = some none := by
  have h := (Run_put_header_then_end sampleProcess (NewProcess emptyState) samplePut rfl
    (by decide) rfl).2
  rw [Option.map_eq_some'] at h ⊢
  obtain ⟨r, hr, h2⟩ := h
  exact ⟨r, hr, congrArg Prod.fst h2⟩

/-- The framing errors that `Run` does surface: after a put request with `BodySize > 0`, a
value that does not decode as a byte slice, or decodes to another length, makes `Run` return a
non-nil error. -/
theorem Run_bad_body_is_fatal {W : Type} (p : Process W) (s : ProcessState W)
    (req : Request) (v : Value) (rest : List Value) (clean : Bool)
    (hcmd : req.Command = cacheprog.CmdPut) (hsize : 0 < req.BodySize)
    (hstart : (p.cache.Start s.world).1 = none)
    (hbad : v.asBytes = none ∨ ∃ b, v.asBytes = some b ∧ (b.length : Int) ≠ req.BodySize) :
    ∃ e, (p.Run none none ⟨⟨some req, none⟩ :: v :: rest, clean⟩ s).map (fun r => r.err) =
      some (some e) := by
  have hparse : ∃ e jd1, errors.IsEOF e = false ∧
      Process.parseRequest ⟨⟨some req, none⟩ :: v :: rest, clean⟩ = (.error e, jd1) := by
    rcases hbad with hb | ⟨b, hb, hlen⟩
    · exact ⟨Decoder.typeError, ⟨rest, clean⟩, rfl, by
        simp [Process.parseRequest, Decoder.DecodeRequest, Decoder.DecodeBytes, hcmd, hsize,
          hb]⟩
    · exact ⟨Error.errorString ("only got " ++ toString b.length ++ " bytes of declared " ++
          toString req.BodySize), ⟨rest, clean⟩, rfl, by
        simp [Process.parseRequest, Decoder.DecodeRequest, Decoder.DecodeBytes, hcmd, hsize,
          hb, hlen]⟩
  obtain ⟨e, jd1, he, hp⟩ := hparse
  rcases hst : p.cache.Start s.world with ⟨e0, w⟩
  rw [hst] at hstart
  simp only at hstart
  subst hstart
  exact ⟨e, by simp [Process.Run, hst, Process.loop, hp, he]⟩

/-! ## C5: close is idempotent -/

theorem handleGet_closer {W : Type} (p : Process W) (req : Request) (res : Response)
    (s : ProcessState W) :
    (p.handleGet req res s).2.closerDone = s.closerDone ∧
    (p.handleGet req res s).2.errClose = s.errClose ∧
    (p.handleGet req res s).2.closes = s.closes := by
  unfold Process.handleGet
  simp only [ProcessState.closes]
  repeat' split
  all_goals simp [CacheCall.isClose]

theorem handlePut_closer {W : Type} (p : Process W) (req : Request) (res : Response)
    (s : ProcessState W) :
    (p.handlePut req res s).2.closerDone = s.closerDone ∧
    (p.handlePut req res s).2.errClose = s.errClose ∧
    (p.handlePut req res s).2.closes = s.closes := by
  unfold Process.handlePut
  simp only [ProcessState.closes]
  repeat' split
  all_goals simp [CacheCall.isClose]

/-- One `close`: it returns the `errClose` it leaves, leaves the `closer` done, keeps the
invariant, and keeps `errClose` when the `closer` was done already. -/
theorem close_closer {W : Type} (p : Process W) (s : ProcessState W) (h : s.closerInv) :
    (p.close s).1 = (p.close s).2.errClose ∧ (p.close s).2.closerDone = true ∧
    (p.close s).2.closerInv ∧
    (s.closerDone = true → (p.close s).2.errClose = s.errClose) := by
  unfold Process.close
  rcases h with ⟨hd, hc⟩ | ⟨hd, hc⟩
  · simp [hd, ProcessState.closerInv, ProcessState.closes, CacheCall.isClose] at hc ⊢
    exact hc
  · simp [hd, ProcessState.closerInv, hc]

theorem handleRequest_closer {W : Type} (p : Process W) (req : Request) (res : Response)
    (s : ProcessState W) (h : s.closerInv) :
    (p.handleRequest req res s).2.closerInv ∧
    (s.closerDone = true →
      (p.handleRequest req res s).2.closerDone = true ∧
      (p.handleRequest req res s).2.errClose = s.errClose) ∧
    (req.Command = cacheprog.CmdClose →
      (p.handleRequest req res s).2.closerDone = true ∧
      (p.handleRequest req res s).1.map (fun x => x.2) =
        some (p.handleRequest req res s).2.errClose) := by
  have hgp : cacheprog.CmdGet ≠ cacheprog.CmdClose := by decide
  have hpp : cacheprog.CmdPut ≠ cacheprog.CmdClose := by decide
  unfold Process.handleRequest
  by_cases hg : req.Command = cacheprog.CmdGet
  · obtain ⟨h1, h2, h3⟩ := handleGet_closer p req res s
    rw [if_pos hg]
    simp only [ProcessState.closerInv, h1, h2, h3]
    exact ⟨h, fun hd => ⟨hd, trivial⟩, fun hc => absurd (hg.symm.trans hc) hgp⟩
  · by_cases hp : req.Command = cacheprog.CmdPut
    · obtain ⟨h1, h2, h3⟩ := handlePut_closer p req res s
      rw [if_neg hg, if_pos hp]
      simp only [ProcessState.closerInv, h1, h2, h3]
      exact ⟨h, fun hd => ⟨hd, trivial⟩, fun hc => absurd (hp.symm.trans hc) hpp⟩
    · by_cases hc : req.Command = cacheprog.CmdClose
      · obtain ⟨h1, h2, h3, h4⟩ := close_closer p s h
        rw [if_neg hg, if_neg hp, if_pos hc]
        exact ⟨h3, fun hd => ⟨h2, h4 hd⟩, fun _ => ⟨h2, congrArg some h1⟩⟩
      · rw [if_neg hg, if_neg hp, if_neg hc]
        exact ⟨h, fun hd => ⟨hd, rfl⟩, fun hc2 => absurd hc2 hc⟩

/-- Along a run of requests the `closer` stays consistent with the record, a `closer` that is
done keeps its error, and every close request returns the error the state ends with. -/
theorem handleAll_closer {W : Type} (p : Process W) (reqs : List Request) :
    ∀ s : ProcessState W, s.closerInv →
      (p.handleAll reqs s).2.closerInv ∧
      (s.closerDone = true →
        (p.handleAll reqs s).2.closerDone = true ∧
        (p.handleAll reqs s).2.errClose = s.errClose) ∧
      ((∃ req ∈ reqs, req.Command = cacheprog.CmdClose) →
        (p.handleAll reqs s).2.closerDone = true) ∧
      (∀ x ∈ reqs.zip (p.handleAll reqs s).1, x.1.Command = cacheprog.CmdClose →
        x.2 = some (p.handleAll reqs s).2.errClose) := by
  induction reqs with
  | nil =>
    intro s h
    simp [Process.handleAll, h]
  | cons req reqs ih =>
    intro s h
    obtain ⟨h1, h2, h3⟩ := handleRequest_closer p req (Response.new req.ID) s h
    obtain ⟨i1, i2, i3, i4⟩ := ih (p.handleRequest req (Response.new req.ID) s).2 h1
    simp only [Process.handleAll]
    refine ⟨i1, ?_, ?_, ?_⟩
    · intro hd
      obtain ⟨a, b⟩ := h2 hd
      obtain ⟨c, d⟩ := i2 a
      exact ⟨c, d.trans b⟩
    · rintro ⟨r, hr, hc⟩
      rcases List.mem_cons.mp hr with rfl | hr
      · exact (i2 (h3 hc).1).1
      · exact i3 ⟨r, hr, hc⟩
    · intro x hx hc
      simp only [List.zip_cons_cons, List.mem_cons] at hx
      rcases hx with rfl | hx
      · obtain ⟨a, b⟩ := h3 hc
        rw [(i2 a).2]
        exact b
      · exact i4 x hx hc

/-- C5. Close is idempotent.  Take any run of requests handled by a new process, any number
of them close requests.  (1) If at least one request is a close, the `Close` of the store has
been invoked exactly once, and every close returned the same error value, the one that single
invocation returned.  (2) After the deferred `Process.close` of `Run` on the state that run
leaves, the `Close` of the store has been invoked exactly once, and the deferred close and
every close request returned the error that single invocation returned.  (A handler that
never returns is recorded as `none`; a close always returns.) -/
theorem close_is_idempotent {W : Type} (p : Process W) (w : W) (reqs : List Request) :
    ((∃ req ∈ reqs, req.Command = cacheprog.CmdClose) →
      ∃ err : Option Error,
        ((p.handleAll reqs (NewProcess w)).2.calls.filter CacheCall.isClose =
          [CacheCall.Close err]) ∧
        ∀ x ∈ reqs.zip (p.handleAll reqs (NewProcess w)).1,
          x.1.Command = cacheprog.CmdClose → x.2 = some err) ∧
    ∃ err : Option Error,
      ((p.close (p.handleAll reqs (NewProcess w)).2).2.calls.filter CacheCall.isClose =
        [CacheCall.Close err]) ∧
      (p.close (p.handleAll reqs (NewProcess w)).2).1 = err ∧
      ∀ x ∈ reqs.zip (p.handleAll reqs (NewProcess w)).1,
        x.1.Command = cacheprog.CmdClose → x.2 = some err := by
  have h0 : (NewProcess w).closerInv := Or.inl ⟨rfl, rfl⟩
  obtain ⟨i1, -, i3, i4⟩ := handleAll_closer p reqs (NewProcess w) h0
  obtain ⟨c1, c2, c3, c4⟩ := close_closer p (p.handleAll reqs (NewProcess w)).2 i1
  constructor
  · intro hclose
    refine ⟨(p.handleAll reqs (NewProcess w)).2.errClose, ?_, i4⟩
    rcases i1 with ⟨hd, -⟩ | ⟨-, hc⟩
    · rw [i3 hclose] at hd
      exact absurd hd (by decide)
    · exact hc
  · refine ⟨(p.close (p.handleAll reqs (NewProcess w)).2).2.errClose, ?_, c1, ?_⟩
    · rcases c3 with ⟨hd, -⟩ | ⟨-, hc⟩
      · rw [c2] at hd
        exact absurd hd (by decide)
      · exact hc
    · intro x hx hc
      rw [i4 x hx hc]
      exact congrArg some (c4 (i3 ⟨x.1, (List.of_mem_zip hx).1, hc⟩)).symm

/-- C5, evaluated: two close requests on the sample disk close the store once. -/
theorem close_is_idempotent_witness :
    ∃ err : Option Error,
      ((sampleProcess.handleAll [sampleClose, sampleClose]
        (NewProcess emptyState)).2.calls.filter CacheCall.isClose = [CacheCall.Close err]) ∧
      ∀ x ∈ [sampleClose, sampleClose].zip
          (sampleProcess.handleAll [sampleClose, sampleClose] (NewProcess emptyState)).1,
        x.1.Command = cacheprog.CmdClose → x.2 = some err :=
  (close_is_idempotent sampleProcess emptyState [sampleClose, sampleClose]).1
    ⟨sampleClose, by simp, rfl⟩

/-! ## C6: `MergeRemote.Get` is local-first -/

/-- C6. `MergeRemote.Get` is local-first.  If the local tier returns a non-empty output
identifier with no error, `Get` returns exactly the local identifier and path with a nil error
and the remote tier is not asked (its state is unchanged).  Otherwise, if the remote tier
returns a non-empty identifier with no error, `Get` returns the remote identifier with the
local tier's path and a nil error.  Otherwise `Get` returns an empty identifier, an empty path
and the first non-nil of the local and the remote error. -/
theorem MergeRemote_Get_local_first {L R : Type} (m : MergeRemote L R) (actionID : String)
    (s : MergeState L R) :
    let lg := (m.localStorage.Get actionID s.l).1
    let rg := (m.remoteStorage.Get actionID s.r).1
    let out := m.Get actionID s
    (lg.2.2 = none → lg.1 ≠ "" →
      out.1 = (lg.1, lg.2.1, none) ∧ out.2.r = s.r ∧
      out.2.trace = s.trace ++ [MergeEvent.localGet]) ∧
    (¬(lg.2.2 = none ∧ lg.1 ≠ "") → rg.2.2.2 = none → rg.1 ≠ "" →
      out.1 = (rg.1, lg.2.1, none)) ∧
    (¬(lg.2.2 = none ∧ lg.1 ≠ "") → ¬(rg.2.2.2 = none ∧ rg.1 ≠ "") →
      out.1.1 = "" ∧ out.1.2.1 = "" ∧
      (∀ e, lg.2.2 = some e → out.1.2.2 = some e) ∧
      (lg.2.2 = none → out.1.2.2 = rg.2.2.2)) := by
  intro lg rg out
  refine ⟨?_, ?_, ?_⟩
  · intro he hne
    have hc : lg.2.2 = none ∧ lg.1 ≠ "" := ⟨he, hne⟩
    simp only [out, MergeRemote.Get, MergeState.log]
    rw [if_pos hc]
    exact ⟨rfl, rfl, rfl⟩
  · intro hl he hne
    have hc : rg.2.2.2 = none ∧ rg.1 ≠ "" := ⟨he, hne⟩
    simp only [out, MergeRemote.Get, MergeState.log]
    rw [if_neg hl, if_pos hc]
  · intro hl hr
    simp only [out, MergeRemote.Get, MergeState.log]
    rw [if_neg hl, if_neg hr]
    refine ⟨rfl, rfl, ?_, ?_⟩
    · intro e he
      show cmp.Or lg.2.2 rg.2.2.2 = some e
      rw [he]; rfl
    · intro he
      show cmp.Or lg.2.2 rg.2.2.2 = rg.2.2.2
      rw [he]; rfl

/-! ## C7: a merge `Put` when the local tier stops reading -/

/-- `MergeRemote.Put`, step by step. -/
theorem MergeRemote.Put_eq {L R : Type} (m : MergeRemote L R)
    (actionID outputID : String) (size : Int) (body : Reader) (s : MergeState L R) :
    m.Put actionID outputID size body s =
      if m.localStorage.PutReads actionID outputID size
          (m.localBody actionID outputID size body s) s.l <
          (m.piped actionID outputID size body s).length then none
      else
        match (m.remoteStorage.Put actionID outputID size
            (MergeRemote.putBody size body) s.r).1.1 with
        | some err =>
          some (("", some err),
            { l := m.localStorage.PutUnjoined actionID outputID size
                (m.localBody actionID outputID size body s) s.l
              r := (m.remoteStorage.Put actionID outputID size
                (MergeRemote.putBody size body) s.r).2
              trace := s.trace ++
                [MergeEvent.localPutSpawned, MergeEvent.remotePutReturned] })
        | none =>
          match m.localStorage.Put actionID outputID size
              (m.localBody actionID outputID size body s) s.l with
          | none => none
          | some lp =>
            some ((match lp.1.2 with
                | some err => ("", some err)
                | none => (lp.1.1, none)),
              { l := lp.2
                r := (m.remoteStorage.Put actionID outputID size
                  (MergeRemote.putBody size body) s.r).2
                trace := s.trace ++
                  [MergeEvent.localPutSpawned, MergeEvent.remotePutReturned,
                    MergeEvent.pipeWriteClosed, MergeEvent.localPutJoined] }) := by
  simp only [MergeRemote.Put, MergeState.log]
  split
  · rfl
  · rcases hr : (m.remoteStorage.Put actionID outputID size
        (MergeRemote.putBody size body) s.r).1.1 with _ | e
    · rcases hl : m.localStorage.Put actionID outputID size
          (m.localBody actionID outputID size body s) s.l with _ | lp
      · simp
      · rcases hle : lp.1.2 with _ | e <;> simp [hle]
    · simp

/-- What a `MergeRemote.Put` that returns has returned: the error of the remote `Put` with an
empty path when that failed; otherwise the local `Put` returned too, and the result is its
error with an empty path when it failed and its path with a nil error when it did not.  So
the returned error is nil only if both tiers returned nil, and the path is empty on
failure. -/
theorem MergeRemote_Put_returned {L R : Type} (m : MergeRemote L R)
    (actionID outputID : String) (size : Int) (body : Reader) (s : MergeState L R)
    (r : (String × Option Error) × MergeState L R)
    (h : m.Put actionID outputID size body s = some r) :
    (∀ e, (m.remoteStorage.Put actionID outputID size
        (MergeRemote.putBody size body) s.r).1.1 = some e → r.1 = ("", some e)) ∧
    ((m.remoteStorage.Put actionID outputID size
        (MergeRemote.putBody size body) s.r).1.1 = none →
      ∃ lp, m.localStorage.Put actionID outputID size
          (m.localBody actionID outputID size body s) s.l = some lp ∧
        (∀ e, lp.1.2 = some e → r.1 = ("", some e)) ∧
        (lp.1.2 = none → r.1 = (lp.1.1, none))) := by
  rw [MergeRemote.Put_eq] at h
  split at h
  · cases h
  · rcases hr : (m.remoteStorage.Put actionID outputID size
        (MergeRemote.putBody size body) s.r).1.1 with _ | e
    · simp only [hr] at h
      rcases hl : m.localStorage.Put actionID outputID size
          (m.localBody actionID outputID size body s) s.l with _ | lp
      · simp [hl] at h
      · simp only [hl, Option.some.injEq] at h
        refine ⟨fun e he => ?_, fun _ => ⟨lp, rfl, ?_, ?_⟩⟩
        · cases he
        · intro e he
          rw [← h]
          simp [he]
        · intro he
          rw [← h]
          simp [he]
    · simp only [hr, Option.some.injEq] at h
      refine ⟨fun e' he' => ?_, fun hn => ?_⟩
      · simp only [Option.some.injEq] at he'
        rw [← h, he']
      · cases hn

/-- When the local `Put` reads fewer bytes than the remote `Put` reads from the body and
writes to the pipe, the write of the next byte never returns, since nothing closes the read
end, and `MergeRemote.Put` never returns. -/
theorem MergeRemote.Put_short {L R : Type} (m : MergeRemote L R)
    (actionID outputID : String) (size : Int) (body : Reader) (s : MergeState L R)
    (hshort : m.localStorage.PutReads actionID outputID size
        (m.localBody actionID outputID size body s) s.l <
      (m.piped actionID outputID size body s).length) :
    m.Put actionID outputID size body s = none := by
  rw [MergeRemote.Put_eq, if_pos hshort]

/-- A `Disk.Put` of a body that is not empty, when the temporary file of the object cannot be
created, returns that error whatever its reader holds, and reads nothing. -/
theorem Disk.Put_no_temp (d : Disk) (J : JSON) (env : PutEnv) (actionID objectID : String)
    (size : Int) (r : Reader) (s : DiskState) (e : Error) (hsize : size ≠ 0)
    (hcreate : os.CreateTemp env.object.createErr env.object.rnd s.fs
      (d.objectFile objectID) = .error e) :
    (d.Put J env actionID objectID size r s).1 = ("", some e) ∧
    d.PutReads env objectID size r s = 0 := by
  simp [Disk.Put, Disk.PutReads, writeAtomic, writeTempFile, hsize, hcreate]

/-- A `Disk.Put` never reads more than its reader holds, and one that returns no error, for
a `size` that is not zero, has read its reader to the end. -/
theorem Disk.PutReads_le (d : Disk) (J : JSON) (env : PutEnv) (actionID objectID : String)
    (size : Int) (r : Reader) (s : DiskState) :
    d.PutReads env objectID size r s ≤ r.data.length ∧
    (size ≠ 0 → (d.Put J env actionID objectID size r s).1.2 = none →
      d.PutReads env objectID size r s = r.data.length) := by
  constructor
  · unfold Disk.PutReads
    split
    · exact Nat.zero_le _
    · split
      · exact Nat.zero_le _
      · split
        · exact Nat.min_le_right _ _
        · exact Nat.le_refl _
  · intro hsize hok
    unfold Disk.PutReads
    rw [if_neg hsize]
    rcases hc : os.CreateTemp env.object.createErr env.object.rnd s.fs (d.objectFile objectID)
      with e | ⟨name, fs1⟩
    · rw [(Disk.Put_no_temp d J env actionID objectID size r s e hsize hc).1] at hok
      cases hok
    · rcases hce : env.object.copyErr with _ | e
      · rcases hre : r.err with _ | e <;> rfl
      · rcases hre : r.err with _ | e'
        · simp [Disk.Put, writeAtomic, writeTempFile, hsize, hc, io.Copy, hce, hre] at hok
        · rfl

/-- C7, at the input on which the code departs from the claim.  The local tier is a `Disk`
that cannot create the temporary file of the object (the cache directory is missing, or the
call fails), the body is not empty, and the remote `Put` reads at least one byte of it.  The
local `Put` returns the error of `os.CreateTemp`, whatever it is given to read, without
reading; the byte the remote `Put` reads is written to the pipe and never read, and
`MergeRemote.Put` never returns: it returns no error, whatever the remote `Put` would have
returned. -/
theorem MergeRemote_Put_blocks {R : Type} (d : Disk) (J : JSON) (envs : Int → PutEnv)
    (remote : RemoteStorage R) (verbose : Bool) (actionID outputID : String) (size : Int)
    (body : Reader) (s : MergeState DiskState R) (e : Error)
    (hsize : size ≠ 0) (hbody : body.data ≠ [])
    (hread : 0 < (remote.Put actionID outputID size body s.r).1.2)
    (hcreate : os.CreateTemp (envs s.l.count.Puts).object.createErr
      (envs s.l.count.Puts).object.rnd s.l.fs (d.objectFile outputID) = .error e) :
    (∀ r : Reader,
      (d.Put J (envs s.l.count.Puts) actionID outputID size r s.l).1 = ("", some e)) ∧
    (⟨d.storage J envs, remote, verbose⟩ : MergeRemote DiskState R).Put
      actionID outputID size body s = none := by
  refine ⟨fun r => (Disk.Put_no_temp d J _ actionID outputID size r s.l e hsize hcreate).1, ?_⟩
  apply MergeRemote.Put_short
  have hreads : ∀ r : Reader,
      (d.storage J envs).PutReads actionID outputID size r s.l = 0 := fun r =>
    (Disk.Put_no_temp d J _ actionID outputID size r s.l e hsize hcreate).2
  rw [hreads]
  have hlen : 0 < body.data.length := List.length_pos.mpr hbody
  simp only [MergeRemote.piped, MergeRemote.putBody, hsize, if_false, List.length_take]
  exact lt_min hread hlen

/-- C7, evaluated: the local tier is the sample disk without its cache directory, whose
`Put` fails at `os.CreateTemp`, and the remote tier reads the five bytes of `hello` and
succeeds.  The merge `Put` never returns, although the local `Put` failed and the remote
`Put` succeeded. -/
theorem MergeRemote_Put_blocks_witness :
    (remoteTakesAll.Put "aa" "bb" 5 (bytes.NewReader helloBytes) ()).1 = (none, 5) ∧
    (sampleDisk.Put json.reference sampleEnv "aa" "bb" 5 (bytes.NewReader helloBytes)
      emptyState).1 = ("", some Error.ErrNotExist) ∧
    (⟨sampleDisk.storage json.reference (fun _ => sampleEnv), remoteTakesAll, false⟩ :
      MergeRemote DiskState Unit).Put "aa" "bb" 5 (bytes.NewReader helloBytes)
        ⟨emptyState, (), []⟩ = none :=
  have h := MergeRemote_Put_blocks sampleDisk json.reference (fun _ => sampleEnv)
    remoteTakesAll false "aa" "bb" 5 (bytes.NewReader helloBytes) ⟨emptyState, (), []⟩
    Error.ErrNotExist (by decide) (by decide) (by decide) rfl
  ⟨rfl, h.1 (bytes.NewReader helloBytes), h.2⟩

/-! ## C8: `MergeRemote.Start` when the remote tier fails to start -/

/-- C8, at the input on which the code departs from the claim.  The local `Start` succeeds
and the remote `Start` fails: `MergeRemote.Start` returns an error having invoked the local
`Start`, the remote `Start` and the remote `Close`, and nothing else; the local tier, which
was opened, is left in the state its `Start` gave it, its `Close` not invoked. -/
theorem MergeRemote_Start_remote_failure {L R : Type} (m : MergeRemote L R)
    (s : MergeState L R) (e : Error)
    (hl : (m.localStorage.Start s.l).1 = none)
    (hr : (m.remoteStorage.Start s.r).1 = some e) :
    (m.Start s).1 = some (Error.wrapError "remote cache start failed: " e) ∧
    (m.Start s).2.trace =
      s.trace ++ [MergeEvent.localStart, MergeEvent.remoteStart, MergeEvent.remoteClose] ∧
    MergeEvent.localClose ∉
      [MergeEvent.localStart, MergeEvent.remoteStart, MergeEvent.remoteClose] ∧
    (m.Start s).2.l = (m.localStorage.Start s.l).2 := by
  simp [MergeRemote.Start, MergeState.log, hl, hr]

/-- C8, evaluated: a local tier that starts and a remote tier that does not. -/
theorem MergeRemote_Start_remote_failure_witness :
    ((⟨fixedLocal none ("", "", none) ("", none) none,
        fixedRemote (some remoteDown) ("", 0, none, none) (none, 0) none, false⟩ :
      MergeRemote Unit Unit).Start ⟨(), (), []⟩).2.trace =
      [MergeEvent.localStart, MergeEvent.remoteStart, MergeEvent.remoteClose] :=
  (MergeRemote_Start_remote_failure
    (⟨fixedLocal none ("", "", none) ("", none) none,
      fixedRemote (some remoteDown) ("", 0, none, none) (none, 0) none, false⟩ :
      MergeRemote Unit Unit) ⟨(), (), []⟩ remoteDown rfl rfl).2.1

/-- When the local `Start` fails, `MergeRemote.Start` closes the local tier and returns an
error without invoking the remote `Start`. -/
theorem MergeRemote_Start_local_failure {L R : Type} (m : MergeRemote L R)
    (s : MergeState L R) (e : Error) (hl : (m.localStorage.Start s.l).1 = some e) :
    (m.Start s).1 = some (Error.wrapError "local cache start failed: " e) ∧
    (m.Start s).2.trace = s.trace ++ [MergeEvent.localStart, MergeEvent.localClose] ∧
    (m.Start s).2.r = s.r := by
  simp [MergeRemote.Start, MergeState.log, hl]

/-- When both tiers start, `MergeRemote.Start` returns nil having started the local tier and
then the remote tier. -/
theorem MergeRemote_Start_success {L R : Type} (m : MergeRemote L R)
    (s : MergeState L R) (hl : (m.localStorage.Start s.l).1 = none)
    (hr : (m.remoteStorage.Start s.r).1 = none) :
    (m.Start s).1 = none ∧
    (m.Start s).2.trace = s.trace ++ [MergeEvent.localStart, MergeEvent.remoteStart] := by
  simp [MergeRemote.Start, MergeState.log, hl, hr]

/-! ## C10: `MergeRemote.Put` when the remote tier fails -/

/-- C10, at the input on which the code departs from the claim.  The remote `Put` fails.
`MergeRemote.Put` returns whenever the local task has read what was written to the pipe, and
then it returns that error at once.  After the local task was started and the remote `Put`
returned it does nothing more: the write end of the pipe is not closed and the local task is
not joined, so the local tier is left in the state of a `Put` that never sees the end of its
stream. -/
theorem MergeRemote_Put_remote_failure {L R : Type} (m : MergeRemote L R)
    (actionID outputID : String) (size : Int) (body : Reader) (s : MergeState L R) (e : Error)
    (hr : (m.remoteStorage.Put actionID outputID size
      (if size = 0 then bytes.NewReader [] else body) s.r).1.1 = some e) :
    ((m.Put actionID outputID size body s).isSome = true ↔
      (m.piped actionID outputID size body s).length ≤
        m.localStorage.PutReads actionID outputID size
          (m.localBody actionID outputID size body s) s.l) ∧
    ∀ r, m.Put actionID outputID size body s = some r →
      r.1 = ("", some e) ∧
      r.2.trace = s.trace ++ [MergeEvent.localPutSpawned, MergeEvent.remotePutReturned] ∧
      MergeEvent.pipeWriteClosed ∉
        [MergeEvent.localPutSpawned, MergeEvent.remotePutReturned] ∧
      MergeEvent.localPutJoined ∉
        [MergeEvent.localPutSpawned, MergeEvent.remotePutReturned] ∧
      r.2.l = m.localStorage.PutUnjoined actionID outputID size
        (m.localBody actionID outputID size body s) s.l := by
  have hr2 : (m.remoteStorage.Put actionID outputID size
      (MergeRemote.putBody size body) s.r).1.1 = some e := hr
  rw [MergeRemote.Put_eq]
  by_cases hb : m.localStorage.PutReads actionID outputID size
      (m.localBody actionID outputID size body s) s.l <
      (m.piped actionID outputID size body s).length
  · rw [if_pos hb]
    refine ⟨⟨fun h => ?_, fun h => absurd hb (Nat.not_lt.mpr h)⟩, fun r h => ?_⟩
    · cases h
    · cases h
  · rw [if_neg hb]
    simp only [hr2]
    refine ⟨⟨fun _ => Nat.not_lt.mp hb, fun _ => rfl⟩, fun r h => ?_⟩
    simp only [Option.some.injEq] at h
    rw [← h]
    simp

/-- C10, evaluated: a remote tier whose `Put` fails, and a local tier that reads the pipe. -/
theorem MergeRemote_Put_remote_failure_witness :
    ((⟨fixedLocal none ("", "", none) ("cache/o-bb", none) none,
        fixedRemote none ("", 0, none, none) (some remoteDown, 0) none, false⟩ :
      MergeRemote Unit Unit).Put "aa" "bb" 5 (bytes.NewReader helloBytes)
        ⟨(), (), []⟩).map (fun r => r.2.trace) =
      some [MergeEvent.localPutSpawned, MergeEvent.remotePutReturned] := by
  have h := MergeRemote_Put_remote_failure
    (⟨fixedLocal none ("", "", none) ("cache/o-bb", none) none,
      fixedRemote none ("", 0, none, none) (some remoteDown, 0) none, false⟩ :
      MergeRemote Unit Unit) "aa" "bb" 5 (bytes.NewReader helloBytes) ⟨(), (), []⟩
    remoteDown rfl
  obtain ⟨r, hr⟩ := Option.isSome_iff_exists.mp (h.1.mpr (by decide))
  rw [hr]
  exact congrArg some (h.2 r hr).2.1

/-- The remote failure, on a disk.  The remote `Put` reads `hello` and fails; the local task
has read the five bytes from the pipe and waits for more.  `MergeRemote.Put` returns the
remote error, and the local tier is left with the temporary file of the task holding `hello`:
no object file, no index file, and no put error counted. -/
theorem MergeRemote_Put_remote_failure_on_disk :
    ((⟨sampleDisk.storage json.reference (fun _ => sampleEnv), remoteFailsLate, false⟩ :
      MergeRemote DiskState Unit).Put "aa" "bb" 5 (bytes.NewReader helloBytes)
        ⟨cacheState, (), []⟩).map
      (fun r => (r.1, r.2.l.fs "cache/o-bb.101", r.2.l.fs "cache/o-bb", r.2.l.fs "cache/a-aa",
        r.2.l.count.Puts, r.2.l.count.PutErrors)) =
      some (("", some remoteDown), some (Node.file helloBytes), none, none, 1, 0) := by
  rfl

/-- When the remote `Put` succeeds, a `MergeRemote.Put` that returns has closed the write end
of the pipe after the remote `Put` returned and then joined the local task. -/
theorem MergeRemote_Put_remote_success {L R : Type} (m : MergeRemote L R)
    (actionID outputID : String) (size : Int) (body : Reader) (s : MergeState L R)
    (r : (String × Option Error) × MergeState L R)
    (hr : (m.remoteStorage.Put actionID outputID size
      (MergeRemote.putBody size body) s.r).1.1 = none)
    (h : m.Put actionID outputID size body s = some r) :
    r.2.trace =
      s.trace ++ [MergeEvent.localPutSpawned, MergeEvent.remotePutReturned,
        MergeEvent.pipeWriteClosed, MergeEvent.localPutJoined] := by
  rw [MergeRemote.Put_eq] at h
  split at h
  · cases h
  · simp only [hr] at h
    split at h
    · cases h
    · simp only [Option.some.injEq] at h
      rw [← h]

/-! ## C9: the index entry is published after the object -/

/-- C9, as stated, fails.  The output identifier `/../a-aa` makes `filepath.Join` clean the
name of the object file to `cache/a-aa`, the index file of action `aa`, which holds `old`.
A `Disk.Put` that declares four bytes and is given `hello` renames the body onto that file and
then returns the error of the length check: the index file of the action is not as it was. -/
theorem Disk_Put_index_after_object_counterexample :
    (sampleDisk.Put json.reference sampleEnv "aa" "/../a-aa" 4 (bytes.NewReader helloBytes)
      staleState).1 = ("", some (Error.errorString "wrote 5 bytes, expected 4")) ∧
    staleState.fs "cache/a-aa" = some (Node.file [111, 108, 100]) ∧
    (sampleDisk.Put json.reference sampleEnv "aa" "/../a-aa" 4 (bytes.NewReader helloBytes)
      staleState).2.fs "cache/a-aa" = some (Node.file helloBytes) ∧
    (sampleDisk.Put json.reference sampleEnv "aa" "/../a-aa" 4 (bytes.NewReader helloBytes)
      staleState).2.fs (sampleDisk.actionFile "aa") ≠
        staleState.fs (sampleDisk.actionFile "aa") := by
  refine ⟨by rfl, by rfl, by rfl, by decide⟩

/-- C9, amended.  `Disk.Put` publishes the index entry only after the object is committed and
verified, for every call whose action identifier and output identifier hold no path separator
(as every identifier the protocol engine passes, which is hexadecimal).  With `idx` the index
file of the action and `obj` the object file:
(1) if `Put` returns an error, the returned path is empty and `idx` is left exactly as it was;
(2) if the write of the object fails (the `OpenFile` for `size == 0`, the `writeAtomic`
otherwise) `Put` returns that error, and if the written length differs from `size` it returns
an error;
(3) if `Put` returns no error, the final file system is the one in which the object file holds
the body (of `size` bytes; nothing for `size == 0`) and `idx` is still as before the call,
changed at `idx` alone, where it holds the marshalled entry, which decodes to version 1, the
given output identifier and the given size.
The codec is any one that reads back the entry it has written. -/
theorem Disk_Put_index_after_object (d : Disk) (J : JSON) (env : PutEnv)
    (actionID outputID : String) (size : Int) (body : Reader) (s : DiskState)
    (hact : '/' ∉ actionID.data) (hout : '/' ∉ outputID.data)
    (hJ : ∀ ij, J.Marshal ⟨1, outputID, size, env.now⟩ = .ok ij →
      J.Unmarshal ij = .ok ⟨1, outputID, size, env.now⟩) :
    let out := d.Put J env actionID outputID size body s
    let idx := d.actionFile actionID
    let obj := d.objectFile outputID
    (∀ e, out.1.2 = some e → out.1.1 = "" ∧ out.2.fs idx = s.fs idx) ∧
    (size = 0 → ∀ e, os.OpenFileTrunc env.openErr s.fs obj = .error e → out.1.2 = some e) ∧
    (size ≠ 0 → ∀ e fs1, writeAtomic env.object s.fs obj body = (.error e, fs1) →
      out.1.2 = some e) ∧
    (size ≠ 0 → ∀ wrote fs1, writeAtomic env.object s.fs obj body = (.ok wrote, fs1) →
      wrote ≠ size → ∃ e, out.1.2 = some e) ∧
    (out.1.2 = none →
      ∃ (fs1 : FS) (ij : Bytes) (ie : indexEntry),
        fs1 obj = some (Node.file (if size = 0 then [] else body.data)) ∧
        (size ≠ 0 → body.err = none ∧ (body.data.length : Int) = size) ∧
        fs1 idx = s.fs idx ∧
        out.2.fs = fs1.set idx (some (Node.file ij)) ∧
        J.Unmarshal ij = .ok ie ∧ ie.Version = 1 ∧ ie.OutputID = outputID ∧
        ie.Size = size) := by
  intro out idx obj
  have hao := actionFile_ne_objectFile d actionID outputID hact hout
  refine ⟨?_, ?_, ?_, ?_, ?_⟩
  · intro e he
    have h : d.Put J env actionID outputID size body s = ((out.1.1, some e), out.2) := by
      rw [← he]
    exact Disk.Put_error d J env actionID outputID size body s out.2 out.1.1 e hao h
  · intro h0 e ho
    simp only [obj] at ho
    simp [out, Disk.Put, h0, ho]
  · intro h0 e fs1 hw
    simp only [obj] at hw
    simp [out, Disk.Put, h0, hw]
  · intro h0 wrote fs1 hw hne
    simp only [obj] at hw
    simp [out, Disk.Put, h0, hw, hne]
  · intro he
    have h : d.Put J env actionID outputID size body s = ((out.1.1, none), out.2) := by
      rw [← he]
    obtain ⟨-, hb, ij, hm, hfs⟩ := Disk.Put_ok d J env actionID outputID size body s out.2 _ h
    refine ⟨d.objectWritten outputID size body s.fs, ij, ⟨1, outputID, size, env.now⟩,
      ?_, hb, ?_, hfs, hJ ij hm, rfl, rfl, rfl⟩
    · simp [Disk.objectWritten, FS.set, obj]
    · simp [Disk.objectWritten, FS.set, idx, hao]

/-- C9 amended, evaluated: a `Put` that declares four bytes and is given five returns an error
and leaves the index file holding `old`. -/
theorem Disk_Put_index_after_object_witness :
    (sampleDisk.Put json.reference sampleEnv "aa" "bb" 4 (bytes.NewReader helloBytes)
      staleState).1.1 = "" ∧
    (sampleDisk.Put json.reference sampleEnv "aa" "bb" 4 (bytes.NewReader helloBytes)
      staleState).2.fs "cache/a-aa" = some (Node.file [111, 108, 100]) :=
  (Disk_Put_index_after_object sampleDisk json.reference sampleEnv "aa" "bb" 4
    (bytes.NewReader helloBytes) staleState (by decide) (by decide)
    (by intro ij h; cases h; rfl)).1
    (Error.errorString "wrote 5 bytes, expected 4") rfl

/-! ## C11: the counters of `Disk.Get` -/

/-- What `Disk.Get` does to the counters on the paths where the accounting holds: `Gets` grows
by one on every call; a missing index file adds one to `Misses` and nothing to `GetErrors`; a
returned error adds one to `GetErrors` and nothing to `Misses`; a hit changes neither. -/
theorem Disk_Get_counts (d : Disk) (J : JSON) (actionID : String) (s : DiskState) :
    let out := d.Get J actionID s
    out.2.count.Gets = s.count.Gets + 1 ∧
    (s.fs (d.actionFile actionID) = none →
      out.2.count.Misses = s.count.Misses + 1 ∧ out.2.count.GetErrors = s.count.GetErrors) ∧
    (∀ e, out.1.2.2 = some e →
      out.2.count.GetErrors = s.count.GetErrors + 1 ∧ out.2.count.Misses = s.count.Misses) ∧
    (out.1.1 ≠ "" →
      out.2.count.Misses = s.count.Misses ∧ out.2.count.GetErrors = s.count.GetErrors) := by
  intro out
  simp only [out, Disk.Get, os.ReadFile]
  rcases hf : s.fs (d.actionFile actionID) with _ | (ij | _)
  · simp [os.IsNotExist]
  · simp only
    rcases hu : J.Unmarshal ij with e | ie
    · simp
    · simp only
      rcases hd : (hex.DecodeString ie.OutputID).2 with _ | e <;> simp
  · simp [os.IsNotExist]

/-- C11, at the input on which the code departs from the claim.  The index file of the action
exists and either `json.Unmarshal` rejects its contents or it names an output identifier that
`hex.DecodeString` rejects.  `Disk.Get` returns a miss (an empty output identifier, a nil
error) and counts the call in `Gets` only: `Misses` and `GetErrors` are as before, so the call
is accounted for in none of the three ways. -/
theorem Disk_Get_downgraded_miss_uncounted (d : Disk) (J : JSON) (actionID : String)
    (s : DiskState) (ij : Bytes)
    (hf : s.fs (d.actionFile actionID) = some (Node.file ij))
    (hbad : (∃ e, J.Unmarshal ij = .error e) ∨
      ∃ ie, J.Unmarshal ij = .ok ie ∧ (hex.DecodeString ie.OutputID).2 ≠ none) :
    (d.Get J actionID s).1 = ("", "", none) ∧
    (d.Get J actionID s).2.count =
      { s.count with Gets := s.count.Gets + 1 } ∧
    (d.Get J actionID s).2.count.Misses = s.count.Misses ∧
    (d.Get J actionID s).2.count.GetErrors = s.count.GetErrors := by
  rcases hbad with ⟨e, hu⟩ | ⟨ie, hu, hx⟩
  · simp [Disk.Get, os.ReadFile, hf, hu]
  · rcases hd : (hex.DecodeString ie.OutputID).2 with _ | e
    · exact absurd hd hx
    · simp [Disk.Get, os.ReadFile, hf, hu, hd]

/-- C11, evaluated: after four gets, one of them a miss, a `Get` of an action whose index file
holds three bytes that are not an entry returns a miss and leaves five gets, one miss and no
error counted. -/
theorem Disk_Get_downgraded_miss_uncounted_witness :
    (sampleDisk.Get json.reference "aa" corruptState).1 = ("", "", none) ∧
    (sampleDisk.Get json.reference "aa" corruptState).2.count = ⟨5, 0, 1, 0, 0, 0⟩ :=
  ⟨(Disk_Get_downgraded_miss_uncounted sampleDisk json.reference "aa" corruptState
      [111, 108, 100] rfl (Or.inl ⟨_, rfl⟩)).1,
    (Disk_Get_downgraded_miss_uncounted sampleDisk json.reference "aa" corruptState
      [111, 108, 100] rfl (Or.inl ⟨_, rfl⟩)).2.1⟩

/-! ## C12: a remote-only entry is not served -/

/-- C12. A remote-only entry is never served through the protocol.  Take a `MergeRemote`
whose local tier is a `Disk` with no index file for the action of the request, and a remote
tier whose `Get` returns, with no error, a non-empty output identifier that `hex.DecodeString`
accepts.  Then `MergeRemote.Get` returns that identifier with an empty disk path and no error;
`os.Stat` of the empty path in the state it leaves finds no file; and `handleGet` answers with
`Miss = true`, no error and an empty `DiskPath` (the decoded identifier is in the response). -/
theorem remote_only_entry_is_miss {R : Type} (d : Disk) (J : JSON) (envs : Int → PutEnv)
    (remote : RemoteStorage R) (verbose pverbose : Bool) (req : Request)
    (ps : ProcessState (MergeState DiskState R)) (outputID : String)
    (hidx : ps.world.l.fs (d.actionFile (hex.EncodeToString req.ActionID)) = none)
    (hid : (remote.Get (hex.EncodeToString req.ActionID) ps.world.r).1.1 = outputID)
    (herr : (remote.Get (hex.EncodeToString req.ActionID) ps.world.r).1.2.2.2 = none)
    (hne : outputID ≠ "") (hhex : (hex.DecodeString outputID).2 = none) :
    let m : MergeRemote DiskState R := ⟨d.storage J envs, remote, verbose⟩
    let got := m.Get (hex.EncodeToString req.ActionID) ps.world
    let out := ((m.process pverbose).handleGet req (Response.new req.ID) ps).1
    got.1 = (outputID, "", none) ∧
    os.Stat got.2.l.fs "" = .error Error.ErrNotExist ∧
    out.2 = none ∧ out.1.Miss = true ∧ out.1.DiskPath = "" ∧
    out.1 = { Response.new req.ID with
      OutputID := (hex.DecodeString outputID).1, Miss := true } := by
  intro m got out
  have hlocal : (d.storage J envs).Get (hex.EncodeToString req.ActionID) ps.world.l =
      (("", "", none),
        { ps.world.l with count := { ps.world.l.count with
            Gets := ps.world.l.count.Gets + 1,
            Misses := ps.world.l.count.Misses + 1 } }) := by
    simp [Disk.storage, Disk.Get, os.ReadFile, hidx, os.IsNotExist]
  have hgot : got.1 = (outputID, "", none) := by
    simp only [got, m, MergeRemote.Get, MergeState.log, hlocal]
    simp [herr, hid, hne]
  have hget : (m.process pverbose).cache.Get (hex.EncodeToString req.ActionID) ps.world =
      ((outputID, "", none), got.2) := by
    show m.Get (hex.EncodeToString req.ActionID) ps.world = _
    rw [← hgot]
  have hstat : ∀ w : MergeState DiskState R,
      (m.process pverbose).Stat w "" = .error Error.ErrNotExist := by
    intro w
    simp [MergeRemote.process, os.Stat]
  refine ⟨hgot, by simp [os.Stat], ?_⟩
  have hout : out = ({ Response.new req.ID with
      OutputID := (hex.DecodeString outputID).1, Miss := true }, none) := by
    simp only [out, Process.handleGet, hget]
    simp [hne, hhex, hstat, os.IsNotExist]
  rw [hout]
  exact ⟨rfl, rfl, rfl, rfl⟩

/-- C12, evaluated: with an empty local cache and a remote tier that holds `bb`, the get of
action `aa` is answered as a miss with no path. -/
theorem remote_only_entry_is_miss_witness :
    (((⟨sampleDisk.storage json.reference (fun _ => sampleEnv), remoteHit, false⟩ :
        MergeRemote DiskState Unit).process false).handleGet sampleGet
      (Response.new sampleGet.ID) (NewProcess ⟨emptyState, (), []⟩)).1 =
      ({ Response.new sampleGet.ID with OutputID := [187], Miss := true }, none) := by
  have h := (remote_only_entry_is_miss sampleDisk json.reference (fun _ => sampleEnv)
    remoteHit false false sampleGet (NewProcess ⟨emptyState, (), []⟩) "bb" rfl rfl rfl
    (by decide) (by decide)).2.2
  exact Prod.ext h.2.2.2 h.1

end Gocache
